import Mathlib

/-!
Verification of the path-based cache mutation engine of `tanstack-cacher`
(`src/managers/QueryCacheManager/QueryCache.utils.ts` and
`src/managers/QueryCacheManager/QueryCache.manager.ts`).

The JavaScript data is embedded as the inductive type `JVal`
(JSON-like values plus `undefined` and `NaN`; numbers are modelled as
integers, which is exact for the arithmetic these claims are about — the
counters the pagination code reads, increments and compares are integral). Property access that throws in JavaScript (reading a property of
`null`/`undefined`) is modelled with `Except Unit`: `.error ()` means the
original code raised a `TypeError`, which the manager's mutation methods
catch and turn into a cache invalidation, leaving the cached value
unchanged.

A second, heap-based model (`HVal`, addresses into a list of cells) is used
for the structural-sharing claim, because reference identity is not
expressible in the plain value model.
-/

set_option autoImplicit false

/-- JavaScript runtime values as far as the cache engine observes them.
Objects are insertion-ordered string-keyed field lists; arrays are element
lists. `vnan` stands for the number `NaN`. Functions never occur as data in
the cache payloads these claims quantify over and are not modelled. -/
inductive JVal where
  | vnull
  | vundef
  | vbool (b : Bool)
  | vnum (n : ℤ)
  | vnan
  | vstr (s : String)
  | vobj (fields : List (String × JVal))
  | varr (elems : List JVal)

open JVal

/-- JavaScript truthiness: `null`, `undefined`, `false`, `0`, `NaN` and the
empty string are falsy; every object and array (even empty) is truthy. -/
def truthy : JVal → Bool
  | vnull => false
  | vundef => false
  | vbool b => b
  | vnum n => n != 0
  | vnan => false
  | vstr s => s != ""
  | vobj _ => true
  | varr _ => true

/-- `typeof v === 'object'`: true for objects, arrays and `null`. -/
def typeofObject : JVal → Bool
  | vnull => true
  | vobj _ => true
  | varr _ => true
  | _ => false

/-- Is the value an array (`Array.isArray`). -/
def isArr : JVal → Bool
  | varr _ => true
  | _ => false

/-- Property read on an object field list: first binding wins, missing keys
read as `undefined`. -/
def objGet : List (String × JVal) → String → JVal
  | [], _ => vundef
  | (k', v) :: fs, k => if k' = k then v else objGet fs k

/-- Property write on an object field list: updates the first binding in
place (keeping its position, as JavaScript does) or appends a new one. -/
def objSet : List (String × JVal) → String → JVal → List (String × JVal)
  | [], k, v => [(k, v)]
  | (k', w) :: fs, k, v => if k' = k then (k', v) :: fs else (k', w) :: objSet fs k v

/-- Own enumerable properties as produced by object spread `{...v}`:
an object's fields, an array's index-keyed elements, a string's
index-keyed characters, and nothing for other primitives. -/
def spreadFields : JVal → List (String × JVal)
  | vobj f => f
  | varr xs => (xs.enum.map fun p => (toString p.1, p.2))
  | vstr s => (s.data.enum.map fun p => (toString p.1, vstr (String.singleton p.2)))
  | _ => []

/-- Element lookup on an array by property key: `length`, or a decimal
index (non-canonical numeric strings such as `"01"` are approximated as
plain decimal parses). Other keys (array methods) read as `undefined`. -/
def arrGet (xs : List JVal) (k : String) : JVal :=
  if k = "length" then vnum xs.length
  else match k.toNat? with
    | some i => xs.getD i vundef
    | none => vundef

/-- Property lookup on a string: `length` or a character index; method
properties are not modelled and read as `undefined`. -/
def strGet (s : String) (k : String) : JVal :=
  if k = "length" then vnum s.length
  else match k.toNat? with
    | some i => match s.data.get? i with
      | some c => vstr (String.singleton c)
      | none => vundef
    | none => vundef

/-- JavaScript property access `v[k]`. Reading a property of `null` or
`undefined` throws a `TypeError` (`.error ()`); every other value yields a
value (primitives have no own data properties apart from the modelled
ones, so they read as `undefined`). -/
def jsGetProp : JVal → String → Except Unit JVal
  | vnull, _ => .error ()
  | vundef, _ => .error ()
  | vobj f, k => .ok (objGet f k)
  | varr xs, k => .ok (arrGet xs k)
  | vstr s, k => .ok (strGet s k)
  | vbool _, _ => .ok vundef
  | vnum _, _ => .ok vundef
  | vnan, _ => .ok vundef

/-- `path.split('.')` for the single-character separator `'.'`:
accumulator-based splitter over the character list. -/
def splitDotsAux : List Char → List Char → List String
  | [], acc => [String.mk acc.reverse]
  | c :: cs, acc =>
      if c = '.' then String.mk acc.reverse :: splitDotsAux cs []
      else splitDotsAux cs (c :: acc)

/-- `path.split('.')`. `splitPath "" = [""]` and `splitPath "a.b" = ["a","b"]`,
exactly as in JavaScript. -/
def splitPath (s : String) : List String :=
  splitDotsAux s.data []

/-- The key-walking loop of `getAtPath`: checks for `null` before each
read (returning the default), reads the property (which throws on an
`undefined` intermediate), and finally substitutes the default for an
`undefined` result. -/
def getWalk : JVal → List String → JVal → Except Unit JVal
  | cur, [], dflt => .ok (match cur with | vundef => dflt | _ => cur)
  | cur, k :: ks, dflt =>
      match cur with
      | vnull => .ok dflt
      | _ =>
        match jsGetProp cur k with
        | .error e => .error e
        | .ok nxt => getWalk nxt ks dflt

/-- `getAtPath(obj, path, defaultValue)` from `QueryCache.utils.ts`:
returns the default when `obj` is falsy or the path is empty, then walks
the dot-separated keys. Note the loop guards only `result === null`; a
missing (`undefined`) intermediate with segments left to walk makes the
next read throw. -/
def getAtPath (obj : JVal) (path : String) (dflt : JVal) : Except Unit JVal :=
  if truthy obj = false ∨ path = "" then .ok dflt
  else getWalk obj (splitPath path) dflt

/-- The clone-or-create step of `setAtPath`'s loop: a truthy object-typed
nested container is shallow-cloned, anything else is replaced by `{}`. -/
def cloneFields (child : JVal) : List (String × JVal) :=
  if truthy child && typeofObject child then spreadFields child else []

/-- The chain-building loop of `setAtPath`: for every key but the last,
the existing nested container is shallow-cloned (or replaced by `{}` when
falsy or not object-typed), and the last key is assigned the value. -/
def setWalk (cur : List (String × JVal)) : List String → JVal → List (String × JVal)
  | [], _ => cur
  | [k], v => objSet cur k v
  | k :: k2 :: rest, v =>
      objSet cur k (vobj (setWalk (cloneFields (objGet cur k)) (k2 :: rest) v))

/-- `setAtPath` restricted to an explicit key list (the body after the
path split): shallow-clones the root (`{...obj}`, or `{}` when `obj` is
falsy) and runs the chain-building loop. -/
def setKeys (obj : JVal) (ks : List String) (v : JVal) : JVal :=
  vobj (setWalk (if truthy obj then spreadFields obj else []) ks v)

/-- `setAtPath(obj, path, value)` from `QueryCache.utils.ts`: returns
`obj` unchanged on the empty path, otherwise writes immutably along the
split keys. -/
def setAtPath (obj : JVal) (path : String) (v : JVal) : JVal :=
  if path = "" then obj else setKeys obj (splitPath path) v

/-- JavaScript number coercion (`Number(v)`), partial: decimal strings are
approximated with an integer parse and single-element arrays are not
unwrapped; these corners are unreachable in the proved theorems, whose
hypotheses pin the coerced values to actual numbers. `none` means `NaN`. -/
def jsToNum : JVal → Option ℤ
  | vnum n => some n
  | vnan => none
  | vnull => some 0
  | vundef => none
  | vbool b => some (if b then 1 else 0)
  | vstr s => if s = "" then some 0 else s.toInt?
  | vobj _ => none
  | varr _ => none

/-- A number rendered as a string, used only in the string-concatenation
branch of `+` (exact for integers). -/
def jsNumToString (n : ℤ) : String :=
  toString n

/-- String conversion used by `+` on objects and arrays (approximate;
unreachable in the proved theorems). -/
def jsToStr : JVal → String
  | vstr s => s
  | vnum n => jsNumToString n
  | vnan => "NaN"
  | vnull => "null"
  | vundef => "undefined"
  | vbool b => if b then "true" else "false"
  | vobj _ => "[object Object]"
  | varr _ => ""

/-- JavaScript `v + n` for a number literal `n`: numeric addition after
coercion, or string concatenation when `v` is a string (or object-like,
via its string conversion). -/
def jsAdd (v : JVal) (n : ℤ) : JVal :=
  match v with
  | vstr s => vstr (s ++ jsNumToString n)
  | vobj _ => vstr (jsToStr v ++ jsNumToString n)
  | varr _ => vstr (jsToStr v ++ jsNumToString n)
  | _ =>
    match jsToNum v with
    | some m => vnum (m + n)
    | none => vnan

/-- `incrementAtPath(obj, path, increment)` from `QueryCache.utils.ts`:
read (default 0), add, write back. Propagates a throw from the read. -/
def incrementAtPath (obj : JVal) (path : String) (inc : ℤ) : Except Unit JVal :=
  match getAtPath obj path (vnum 0) with
  | .error e => .error e
  | .ok cur => .ok (setAtPath obj path (jsAdd cur inc))

/-- JavaScript strict equality `===` on the values the matchers compare.
On two objects or two arrays `===` is reference equality, which the value
model cannot observe; it is conservatively `false` here (the proved
theorems only compare primitive keys). `NaN === NaN` is `false`. -/
def jsStrictEq : JVal → JVal → Bool
  | vnan, _ => false
  | _, vnan => false
  | vnull, vnull => true
  | vundef, vundef => true
  | vbool a, vbool b => a == b
  | vnum a, vnum b => a == b
  | vstr a, vstr b => a == b
  | _, _ => false

/-- `v > 0` after JavaScript number coercion (`NaN > 0` is `false`). -/
def jsGtZero (v : JVal) : Bool :=
  match jsToNum v with
  | some m => decide (0 < m)
  | none => false

/-- Ceiling division on integers: `-((-a) / b)` equals `⌈a / b⌉` for every
positive `b`, since `/` on `ℤ` floors for positive divisors. -/
def intCeilDiv (a b : ℤ) : ℤ :=
  -((-a) / b)

/-- The composite `Math.ceil(a / b)` on coerced numbers. The intermediate
ratio is not representable over integer numbers, so the two source
operations are fused; the result is exact for number operands (the only
reachable case, under the manager's `pageSize > 0` guard — division by
zero, which yields infinities in JavaScript, is collapsed to `vnan` and
unreachable). -/
def jsCeilDiv (a b : JVal) : JVal :=
  match jsToNum a, jsToNum b with
  | some x, some y => if y = 0 then vnan else vnum (intCeilDiv x y)
  | _, _ => vnan

/-- `Math.max(0, v)` on a coerced number (`NaN` propagates). -/
def jsMax0 (v : JVal) : JVal :=
  match jsToNum v with
  | some m => vnum (max 0 m)
  | none => vnan

/-- Pagination path configuration (`PaginationConfig` in
`QueryCache.types.ts`). The manager tests each path for truthiness before
using it, so the empty string represents an unconfigured path. -/
structure PaginationPaths where
  totalElementsPath : String
  totalPagesPath : String
  currentPagePath : String
  pageSizePath : String

/-- `DEFAULT_PAGINATION_PATHS` from `QueryCache.consts.ts`. -/
def DEFAULT_PAGINATION_PATHS : PaginationPaths :=
  ⟨"data.page.totalElements", "data.page.totalPages", "data.page.number", "data.page.size"⟩

/-- The default key extractor installed by the constructor:
`(item: any) => item.id`. Member access throws on `null`/`undefined`. -/
def defaultKeyExtractor (item : JVal) : Except Unit JVal :=
  jsGetProp item "id"

/-- The manager's resolved configuration (`QueryCacheManager.config`)
restricted to the fields the pure snapshot transforms consume; the query
client and query key belong to the external store and are out of scope. -/
structure CacheConfig where
  itemsPath : String
  keyExtractor : JVal → Except Unit JVal
  pagination : Option PaginationPaths
  initialData : JVal

/-- `QueryCacheManager.getItems`: empty list for a falsy snapshot; the
snapshot itself when the items path is empty and the snapshot is an
array; otherwise a path read (default `[]`) coercing non-arrays to `[]`.
The read can throw (see `getAtPath`). -/
def getItems (cfg : CacheConfig) (data : JVal) : Except Unit (List JVal) :=
  if truthy data = false then .ok []
  else if cfg.itemsPath = "" then
    .ok (match data with | varr xs => xs | _ => [])
  else
    match getAtPath data cfg.itemsPath (varr []) with
    | .error e => .error e
    | .ok items => .ok (match items with | varr xs => xs | _ => [])

/-- `QueryCacheManager.setItems`: a falsy snapshot is replaced by the
configured (truthy) initial data, or by `{}`; an empty items path makes
the items array the whole new snapshot; otherwise the array is written at
the items path. Never throws. -/
def setItems (cfg : CacheConfig) (data : JVal) (items : List JVal) : JVal :=
  if truthy data then
    if cfg.itemsPath = "" then varr items
    else setAtPath data cfg.itemsPath (varr items)
  else if truthy cfg.initialData then
    if cfg.itemsPath = "" then varr items
    else setAtPath cfg.initialData cfg.itemsPath (varr items)
  else
    if cfg.itemsPath = "" then varr items
    else setAtPath (vobj []) cfg.itemsPath (varr items)

/-- `QueryCacheManager.updatePaginationOnAdd`: increment the configured
total-elements counter, then, when the total-pages, page-size and
total-elements paths are all configured and the page size reads positive,
write `Math.ceil(totalElements / pageSize)` (no clamping of a negative
total) at the total-pages path. -/
def updatePaginationOnAdd (cfg : CacheConfig) (data : JVal) (addedCount : ℤ) :
    Except Unit JVal :=
  match cfg.pagination with
  | none => .ok data
  | some pg =>
    match (if pg.totalElementsPath ≠ "" then incrementAtPath data pg.totalElementsPath addedCount
           else .ok data) with
    | .error e => .error e
    | .ok result =>
      if pg.totalPagesPath ≠ "" ∧ pg.pageSizePath ≠ "" ∧ pg.totalElementsPath ≠ "" then
        match getAtPath result pg.pageSizePath (vnum 0) with
        | .error e => .error e
        | .ok pageSize =>
          match getAtPath result pg.totalElementsPath (vnum 0) with
          | .error e => .error e
          | .ok totalElements =>
            if jsGtZero pageSize then
              .ok (setAtPath result pg.totalPagesPath (jsCeilDiv totalElements pageSize))
            else .ok result
      else .ok result

/-- `QueryCacheManager.updatePaginationOnRemove`: decrement the configured
total-elements counter, then recompute
`Math.ceil(Math.max(0, totalElements) / pageSize)` under the same guard
(here the total is clamped at 0 before dividing). -/
def updatePaginationOnRemove (cfg : CacheConfig) (data : JVal) (removedCount : ℤ) :
    Except Unit JVal :=
  match cfg.pagination with
  | none => .ok data
  | some pg =>
    match (if pg.totalElementsPath ≠ "" then incrementAtPath data pg.totalElementsPath (-removedCount)
           else .ok data) with
    | .error e => .error e
    | .ok result =>
      if pg.totalPagesPath ≠ "" ∧ pg.pageSizePath ≠ "" ∧ pg.totalElementsPath ≠ "" then
        match getAtPath result pg.pageSizePath (vnum 0) with
        | .error e => .error e
        | .ok pageSize =>
          match getAtPath result pg.totalElementsPath (vnum 0) with
          | .error e => .error e
          | .ok totalElements =>
            if jsGtZero pageSize then
              .ok (setAtPath result pg.totalPagesPath (jsCeilDiv (jsMax0 totalElements) pageSize))
            else .ok result
      else .ok result

/-- `InsertPosition` (`'start' | 'end'`). -/
inductive InsertPosition where
  | start
  | endPos

/-- `{...item, ...updatedItem}`: shallow merge, later spread wins, existing
keys keep their position. -/
def shallowMerge (item upd : JVal) : JVal :=
  vobj ((spreadFields upd).foldl (fun acc kv => objSet acc kv.1 kv.2) (spreadFields item))

/-- The default matcher built by `update`:
`keyExtractor(item) === keyExtractor(updatedItem)` (left operand first,
throws propagate). -/
def updateDefaultMatch (cfg : CacheConfig) (updatedItem : JVal) (item : JVal) :
    Except Unit Bool :=
  match cfg.keyExtractor item with
  | .error e => .error e
  | .ok a =>
    match cfg.keyExtractor updatedItem with
    | .error e => .error e
    | .ok b => .ok (jsStrictEq a b)

/-- The default matcher built by `delete`: compares extracted keys when the
argument is object-typed (`typeof itemOrId === 'object'`, which includes
`null` and arrays), and the extracted key against the bare identifier
otherwise. -/
def deleteDefaultMatch (cfg : CacheConfig) (itemOrId : JVal) (item : JVal) :
    Except Unit Bool :=
  if typeofObject itemOrId then
    match cfg.keyExtractor item with
    | .error e => .error e
    | .ok a =>
      match cfg.keyExtractor itemOrId with
      | .error e => .error e
      | .ok b => .ok (jsStrictEq a b)
  else
    match cfg.keyExtractor item with
    | .error e => .error e
    | .ok a => .ok (jsStrictEq a itemOrId)

/-- `items.map(item => matchFn(item) ? {...item, ...updatedItem} : item)`
with a matcher that may throw: elements are visited in order and a throw
aborts the whole map. -/
def mapMergeM (m : JVal → Except Unit Bool) (upd : JVal) :
    List JVal → Except Unit (List JVal)
  | [] => .ok []
  | x :: xs =>
    match m x with
    | .error e => .error e
    | .ok b =>
      match mapMergeM m upd xs with
      | .error e => .error e
      | .ok rest => .ok ((if b then shallowMerge x upd else x) :: rest)

/-- `items.filter(item => !matchFn(item))` with a matcher that may throw. -/
def filterNotM (m : JVal → Except Unit Bool) :
    List JVal → Except Unit (List JVal)
  | [] => .ok []
  | x :: xs =>
    match m x with
    | .error e => .error e
    | .ok b =>
      match filterNotM m xs with
      | .error e => .error e
      | .ok rest => .ok (if b then rest else x :: rest)

/-- `position === 'start' ? [newItem, ...items] : [...items, newItem]`. -/
def insertItem (newItem : JVal) (items : List JVal) : InsertPosition → List JVal
  | .start => newItem :: items
  | .endPos => items ++ [newItem]

/-- The pure snapshot transform performed by `QueryCacheManager.add`
inside `setQueryData`. `.error ()` corresponds to the thrown path, which
`add` catches: it logs and invalidates, leaving the cached snapshot
unchanged. -/
def add (cfg : CacheConfig) (oldData : JVal) (newItem : JVal) (pos : InsertPosition) :
    Except Unit JVal :=
  match getItems cfg oldData with
  | .error e => .error e
  | .ok items =>
    updatePaginationOnAdd cfg (setItems cfg oldData (insertItem newItem items pos)) 1

/-- The pure snapshot transform performed by `QueryCacheManager.update`:
map matching items to their shallow merge with the partial item, write the
array back, no pagination step. -/
def update (cfg : CacheConfig) (oldData : JVal) (updatedItem : JVal)
    (matcher : Option (JVal → Except Unit Bool)) : Except Unit JVal :=
  match getItems cfg oldData with
  | .error e => .error e
  | .ok items =>
    let matchFn := matcher.getD (updateDefaultMatch cfg updatedItem)
    match mapMergeM matchFn updatedItem items with
    | .error e => .error e
    | .ok updatedItems => .ok (setItems cfg oldData updatedItems)

/-- The pure snapshot transform performed by `QueryCacheManager.delete`:
filter out matching items and, only when at least one item was removed,
run the pagination update with the removed count. -/
def delete (cfg : CacheConfig) (oldData : JVal) (itemOrId : JVal)
    (matcher : Option (JVal → Except Unit Bool)) : Except Unit JVal :=
  match getItems cfg oldData with
  | .error e => .error e
  | .ok items =>
    let matchFn := matcher.getD (deleteDefaultMatch cfg itemOrId)
    match filterNotM matchFn items with
    | .error e => .error e
    | .ok updatedItems =>
      let removedCount := items.length - updatedItems.length
      let result := setItems cfg oldData updatedItems
      if 0 < removedCount then updatePaginationOnRemove cfg result (removedCount : ℤ)
      else .ok result

/-- The pure snapshot transform performed by `QueryCacheManager.clear`:
write the empty items array, then write 0 at the configured
total-elements and total-pages paths. Never throws. -/
def clear (cfg : CacheConfig) (oldData : JVal) : JVal :=
  let r0 := setItems cfg oldData []
  let r1 :=
    match cfg.pagination with
    | some pg => if pg.totalElementsPath ≠ "" then setAtPath r0 pg.totalElementsPath (vnum 0) else r0
    | none => r0
  match cfg.pagination with
  | some pg => if pg.totalPagesPath ≠ "" then setAtPath r1 pg.totalPagesPath (vnum 0) else r1
  | none => r1

/-! ### Basic lemmas about object field lists and the path walk -/

theorem objGet_objSet_self (f : List (String × JVal)) (k : String) (v : JVal) :
    objGet (objSet f k v) k = v := by
  induction f with
  | nil => simp [objSet, objGet]
  | cons kv fs ih =>
    obtain ⟨k', w⟩ := kv
    by_cases h : k' = k <;> simp [objSet, objGet, h, ih]

theorem objGet_objSet_ne (f : List (String × JVal)) (k k' : String) (v : JVal)
    (h : k ≠ k') : objGet (objSet f k v) k' = objGet f k' := by
  induction f with
  | nil => simp [objSet, objGet, h]
  | cons kv fs ih =>
    obtain ⟨k'', w⟩ := kv
    by_cases h2 : k'' = k
    · subst h2
      simp [objSet, objGet, h]
    · simp [objSet, objGet, h2, ih]

theorem splitDotsAux_ne_nil (cs acc : List Char) : splitDotsAux cs acc ≠ [] := by
  induction cs generalizing acc with
  | nil => simp [splitDotsAux]
  | cons c cs ih =>
    by_cases h : c = '.' <;> simp [splitDotsAux, h, ih]

theorem splitPath_ne_nil (s : String) : splitPath s ≠ [] :=
  splitDotsAux_ne_nil s.data []

/-- Truthiness of an object is unconditional. -/
theorem truthy_vobj (f : List (String × JVal)) : truthy (vobj f) = true := rfl

/-- Reading back along the keys just written: the chain consists of
objects (never `null`/`undefined`), so the walk cannot throw and ends at
the written value, with the default substituted when the value itself is
`undefined`. -/
theorem getWalk_setWalk (ks : List String) (cur : List (String × JVal)) (v dflt : JVal)
    (hne : ks ≠ []) :
    getWalk (vobj (setWalk cur ks v)) ks dflt
      = .ok (match v with | vundef => dflt | _ => v) := by
  induction ks generalizing cur with
  | nil => exact absurd rfl hne
  | cons k ks ih =>
    cases ks with
    | nil =>
      simp [setWalk, getWalk, jsGetProp, objGet_objSet_self]
    | cons k2 rest =>
      simp only [setWalk, getWalk, jsGetProp, objGet_objSet_self]
      exact ih _ (by simp)

/-- Round trip at the key-list level. -/
theorem getWalk_setKeys (obj v dflt : JVal) (ks : List String) (hne : ks ≠ []) :
    getWalk (setKeys obj ks v) ks dflt
      = .ok (match v with | vundef => dflt | _ => v) :=
  getWalk_setWalk ks _ v dflt hne

/-- C1 core: `getAtPath(setAtPath(o, p, v), p, d)` succeeds for every
non-empty `p` and yields `v`, or `d` when `v` is `undefined`. -/
theorem getAtPath_setAtPath (o v dflt : JVal) (p : String) (hp : p ≠ "") :
    getAtPath (setAtPath o p v) p dflt
      = .ok (match v with | vundef => dflt | _ => v) := by
  unfold setAtPath getAtPath
  simp only [hp, if_neg, if_false]
  have hroot : truthy (setKeys o (splitPath p) v) = true := rfl
  simp [hp, hroot, getWalk_setKeys o v dflt (splitPath p) (splitPath_ne_nil p)]

/-! ### C1: path round trip -/

/-- C1: for every object `o`, non-empty dot-separated path `p` and value
`v`, reading `p` out of `setAtPath o p v` (with the two-argument call's
implicit `undefined` default) yields exactly `v` — regardless of whether
`o` is absent, or whether intermediate containers exist or hold
non-object values. -/
theorem C1_path_round_trip (o v : JVal) (p : String) (hp : p ≠ "") :
    getAtPath (setAtPath o p v) p vundef = .ok v := by
  rw [getAtPath_setAtPath o v vundef p hp]
  cases v <;> rfl

/-- C1 witness: concrete instance with an absent root and a two-segment
path. -/
theorem C1_path_round_trip_witness :
    getAtPath (setAtPath vnull "a.b" (vnum 7)) "a.b" vundef = .ok (vnum 7) :=
  C1_path_round_trip vnull (vnum 7) "a.b" (by decide)

/-! ### C2: missing intermediates -/

/-- Configuration used to exhibit the `getItems` failure: a two-segment
items path, no pagination. -/
def cfgC2 : CacheConfig :=
  ⟨"a.b", defaultKeyExtractor, none, vundef⟩

/-- C2 is a code bug: the claim (and the code's own documentation) says
`getAtPath` returns the default whenever an intermediate is `null` or
absent, but the loop guards only `null`: on `{}` with path `"a.b"` the
first step reads `undefined` and the second step throws a `TypeError`
(`.error ()`), and `getItems` then fails the same way instead of
substituting the empty sequence. -/
theorem C2_missing_intermediate_throws :
    getAtPath (vobj []) "a.b" (vnum 0) = .error ()
      ∧ getItems cfgC2 (vobj []) = .error () := by
  exact ⟨rfl, rfl⟩

/-! ### C8: empty items path -/

/-- C8: with an empty configured items path, `getItems` returns the
snapshot itself when it is an array and the empty sequence for every
non-array snapshot, and `setItems` returns the items array unconditionally
(for present and absent snapshots alike, regardless of initial data). -/
theorem C8_empty_path_identity (cfg : CacheConfig) (s : JVal) (items xs : List JVal)
    (h : cfg.itemsPath = "") :
    getItems cfg (varr xs) = .ok xs
    ∧ (isArr s = false → getItems cfg s = .ok [])
    ∧ setItems cfg s items = varr items := by
  refine ⟨?_, ?_, ?_⟩
  · simp [getItems, h, truthy]
  · intro hs
    unfold getItems
    by_cases ht : truthy s = false
    · simp [ht]
    · simp only [ht, if_false, h, if_pos rfl, if_true]
      cases s <;> simp_all [isArr]
  · unfold setItems
    by_cases ht : truthy s <;> by_cases hi : truthy cfg.initialData <;> simp [ht, hi, h]

/-- C8 witness: a concrete empty-path configuration, an array snapshot, a
non-array snapshot, and a falsy snapshot for `setItems`. -/
theorem C8_empty_path_identity_witness :
    getItems ⟨"", defaultKeyExtractor, none, vundef⟩ (varr [vnum 1, vnum 2]) = .ok [vnum 1, vnum 2]
    ∧ (isArr (vobj [("a", vnum 1)]) = false →
        getItems ⟨"", defaultKeyExtractor, none, vundef⟩ (vobj [("a", vnum 1)]) = .ok [])
    ∧ setItems ⟨"", defaultKeyExtractor, none, vundef⟩ (vobj [("a", vnum 1)]) [vnum 3] = varr [vnum 3] := by
  have h := C8_empty_path_identity ⟨"", defaultKeyExtractor, none, vundef⟩
    (vobj [("a", vnum 1)]) [vnum 3] [vnum 1, vnum 2] (by decide)
  exact ⟨h.1, fun _ => h.2.1 (by decide), h.2.2⟩

/-! ### Divergent-path lemmas: writes off a path do not disturb it -/

theorem setWalk_cons_of_ne (f : List (String × JVal)) (k : String) (tail : List String)
    (v : JVal) (h : tail ≠ []) :
    setWalk f (k :: tail) v
      = objSet f k (vobj (setWalk (cloneFields (objGet f k)) tail v)) := by
  cases tail with
  | nil => exact absurd rfl h
  | cons k2 rest => rfl

/-- Any write along a cons key list rewrites exactly the head key of the
current field list. -/
theorem setWalk_head (f : List (String × JVal)) (k : String) (tail : List String)
    (v : JVal) :
    ∃ x, setWalk f (k :: tail) v = objSet f k x := by
  cases tail with
  | nil => exact ⟨v, rfl⟩
  | cons k2 rest => exact ⟨_, rfl⟩

/-- `o` is an object, and walking the keys `c` stays on objects the whole
way (endpoints included). -/
def isObjChainB : JVal → List String → Bool
  | vobj _, [] => true
  | vobj f, k :: c => isObjChainB (objGet f k) c
  | _, _ => false

theorem isObjChainB_vobj (o : JVal) (c : List String)
    (h : isObjChainB o c = true) : ∃ f, o = vobj f := by
  cases o <;> simp_all [isObjChainB]

/-- The chain rebuilt by a write consists of objects: walking any proper
prefix of the written keys through the result stays on objects. -/
theorem isObjChainB_setWalk (c : List String) (k : String) (rest : List String)
    (f : List (String × JVal)) (v : JVal) :
    isObjChainB (vobj (setWalk f (c ++ k :: rest) v)) c = true := by
  induction c generalizing f with
  | nil => rfl
  | cons k0 c' ih =>
    rw [List.cons_append, setWalk_cons_of_ne f k0 (c' ++ k :: rest) v (by simp)]
    simp only [isObjChainB, objGet_objSet_self]
    exact ih _

theorem isObjChainB_setKeys (o : JVal) (c : List String) (k : String)
    (rest : List String) (v : JVal) :
    isObjChainB (setKeys o (c ++ k :: rest) v) c = true :=
  isObjChainB_setWalk c k rest _ v

/-- On an object, `setKeys` clones the fields directly. -/
theorem setKeys_vobj (f : List (String × JVal)) (ks : List String) (v : JVal) :
    setKeys (vobj f) ks v = vobj (setWalk f ks v) := rfl

theorem cloneFields_vobj (g : List (String × JVal)) : cloneFields (vobj g) = g := rfl

/-- An object chain along a path that properly diverges from a written
path survives the write. -/
theorem isObjChainB_setKeys_diverge (c : List String) (k1 k2 : String)
    (t q' : List String) (o v : JVal) (hk : k1 ≠ k2)
    (hc : isObjChainB o (c ++ k1 :: t) = true) :
    isObjChainB (setKeys o (c ++ k2 :: q') v) (c ++ k1 :: t) = true := by
  induction c generalizing o with
  | nil =>
    obtain ⟨f, rfl⟩ := isObjChainB_vobj o _ hc
    obtain ⟨x, hx⟩ := setWalk_head f k2 q' v
    simp only [List.nil_append] at hc ⊢
    rw [setKeys_vobj, hx]
    simp only [isObjChainB, objGet_objSet_ne f k2 k1 x (fun h => hk h.symm)]
    simpa [isObjChainB] using hc
  | cons k0 c' ih =>
    obtain ⟨f, rfl⟩ := isObjChainB_vobj o _ hc
    simp only [List.cons_append, isObjChainB] at hc
    obtain ⟨g, hg⟩ := isObjChainB_vobj _ _ hc
    rw [List.cons_append, List.cons_append, setKeys_vobj,
      setWalk_cons_of_ne f k0 (c' ++ k2 :: q') v (by simp)]
    simp only [isObjChainB, objGet_objSet_self]
    rw [hg] at hc
    have := ih (vobj g) hc
    rw [setKeys_vobj] at this
    rw [hg, cloneFields_vobj]
    exact this

/-- Core preservation lemma: a write along keys that properly diverge from
the read keys (shared prefix `c`, then different keys) does not change the
read, provided the original value is an object chain along `c`. -/
theorem getWalk_setKeys_diverge (c : List String) (k1 k2 : String)
    (p' q' : List String) (o v dflt : JVal) (hk : k1 ≠ k2)
    (hc : isObjChainB o c = true) :
    getWalk (setKeys o (c ++ k2 :: q') v) (c ++ k1 :: p') dflt
      = getWalk o (c ++ k1 :: p') dflt := by
  induction c generalizing o with
  | nil =>
    obtain ⟨f, rfl⟩ := isObjChainB_vobj o [] hc
    obtain ⟨x, hx⟩ := setWalk_head f k2 q' v
    simp only [List.nil_append]
    rw [setKeys_vobj, hx]
    simp only [getWalk, jsGetProp, objGet_objSet_ne f k2 k1 x (fun h => hk h.symm)]
  | cons k0 c' ih =>
    obtain ⟨f, rfl⟩ := isObjChainB_vobj o _ hc
    simp only [isObjChainB] at hc
    obtain ⟨g, hg⟩ := isObjChainB_vobj _ _ hc
    rw [List.cons_append, List.cons_append, setKeys_vobj,
      setWalk_cons_of_ne f k0 (c' ++ k2 :: q') v (by simp)]
    simp only [getWalk, jsGetProp, objGet_objSet_self]
    rw [hg] at hc
    have := ih (vobj g) hc
    rw [setKeys_vobj] at this
    rw [hg, cloneFields_vobj]
    exact this

/-! ### Manager-level helper lemmas -/

/-- The base snapshot `setItems` writes into when the items path is
non-empty: the snapshot itself when truthy, else the truthy initial data,
else `{}`. -/
def setItemsBase (cfg : CacheConfig) (data : JVal) : JVal :=
  if truthy data then data
  else if truthy cfg.initialData then cfg.initialData
  else vobj []

theorem setItems_eq_setKeys (cfg : CacheConfig) (data : JVal) (items : List JVal)
    (h : cfg.itemsPath ≠ "") :
    setItems cfg data items
      = setKeys (setItemsBase cfg data) (splitPath cfg.itemsPath) (varr items) := by
  unfold setItems setItemsBase setAtPath
  by_cases ht : truthy data <;> by_cases hi : truthy cfg.initialData <;> simp [ht, hi, h]

theorem setItems_empty_path (cfg : CacheConfig) (data : JVal) (items : List JVal)
    (h : cfg.itemsPath = "") : setItems cfg data items = varr items := by
  unfold setItems
  by_cases ht : truthy data <;> by_cases hi : truthy cfg.initialData <;> simp [ht, hi, h]

theorem getAtPath_setKeys_self (base v dflt : JVal) (p : String) (hp : p ≠ "") :
    getAtPath (setKeys base (splitPath p) v) p dflt
      = .ok (match v with | vundef => dflt | _ => v) := by
  have h1 : getAtPath (setAtPath base p v) p dflt
      = .ok (match v with | vundef => dflt | _ => v) := getAtPath_setAtPath base v dflt p hp
  rwa [setAtPath, if_neg hp] at h1

/-- Reading the items back out of any `setItems` result yields exactly the
written list, for every configuration and snapshot. -/
theorem getItems_setItems (cfg : CacheConfig) (data : JVal) (items : List JVal) :
    getItems cfg (setItems cfg data items) = .ok items := by
  by_cases h : cfg.itemsPath = ""
  · rw [setItems_empty_path cfg data items h]
    simp [getItems, truthy, h]
  · rw [setItems_eq_setKeys cfg data items h]
    have hroot : truthy (setKeys (setItemsBase cfg data) (splitPath cfg.itemsPath) (varr items)) = true := rfl
    unfold getItems
    rw [hroot]
    simp only [Bool.true_eq_false, if_false, h, if_neg h]
    rw [getAtPath_setKeys_self (setItemsBase cfg data) (varr items) (varr []) cfg.itemsPath h]

/-- A value read at a path that properly diverges from the items path is
unchanged by `setItems`, provided the snapshot is truthy and its
containers along the shared prefix are objects. -/
theorem getAtPath_setItems_diverge (cfg : CacheConfig) (s : JVal) (items : List JVal)
    (cpath : String) (d : JVal) (c : List String) (k1 k2 : String) (p' q' : List String)
    (hs : truthy s = true) (hip : cfg.itemsPath ≠ "")
    (hcp : splitPath cpath = c ++ k1 :: p')
    (hitems : splitPath cfg.itemsPath = c ++ k2 :: q')
    (hk : k1 ≠ k2) (hc : isObjChainB s c = true) :
    getAtPath (setItems cfg s items) cpath d = getAtPath s cpath d := by
  by_cases hcpe : cpath = ""
  · have hr : truthy (setItems cfg s items) = true := by
      rw [setItems_eq_setKeys cfg s items hip]
      rfl
    simp [getAtPath, hcpe, hr, hs]
  · rw [setItems_eq_setKeys cfg s items hip]
    have hbase : setItemsBase cfg s = s := by simp [setItemsBase, hs]
    rw [hbase]
    have hr : truthy (setKeys s (splitPath cfg.itemsPath) (varr items)) = true := rfl
    unfold getAtPath
    rw [hr, hs]
    simp only [Bool.true_eq_false, false_or, if_neg hcpe]
    rw [hcp, hitems]
    exact getWalk_setKeys_diverge c k1 k2 p' q' s (varr items) d hk hc

/-! ### List traversal lemmas for the matchers -/

theorem filterNotM_all_false (m : JVal → Except Unit Bool) (xs : List JVal)
    (h : ∀ x ∈ xs, m x = .ok false) : filterNotM m xs = .ok xs := by
  induction xs with
  | nil => rfl
  | cons x xs ih =>
    rw [filterNotM, h x (by simp), ih (fun y hy => h y (by simp [hy]))]
    rfl

theorem filterNotM_all_true (m : JVal → Except Unit Bool) (xs : List JVal)
    (h : ∀ x ∈ xs, m x = .ok true) : filterNotM m xs = .ok [] := by
  induction xs with
  | nil => rfl
  | cons x xs ih =>
    rw [filterNotM, h x (by simp), ih (fun y hy => h y (by simp [hy]))]
    rfl

theorem mapMergeM_of_fn (m : JVal → Except Unit Bool) (upd : JVal) (xs : List JVal)
    (b : JVal → Bool) (h : ∀ x ∈ xs, m x = .ok (b x)) :
    mapMergeM m upd xs = .ok (xs.map fun x => if b x then shallowMerge x upd else x) := by
  induction xs with
  | nil => rfl
  | cons x xs ih =>
    rw [mapMergeM, h x (by simp), ih (fun y hy => h y (by simp [hy]))]
    rfl

/-! ### Comparing two decompositions of the same key list -/

/-- Two markers inside the same list are comparable: the second prefix
extends through the first marker, or they are equal, or vice versa. -/
theorem decomp_compare (c1 : List String) (k1 : String) (r1 : List String) :
    ∀ (c2 : List String) (k2 : String) (r2 : List String),
    c1 ++ k1 :: r1 = c2 ++ k2 :: r2 →
    (∃ t, c2 = c1 ++ k1 :: t) ∨ c2 = c1 ∨ (∃ t, c1 = c2 ++ k2 :: t) := by
  induction c1 with
  | nil =>
    intro c2 k2 r2 h
    cases c2 with
    | nil => right; left; rfl
    | cons x c2' =>
      simp only [List.nil_append, List.cons_append, List.cons.injEq] at h
      left
      exact ⟨c2', by rw [h.1]; rfl⟩
  | cons y c1' ih =>
    intro c2 k2 r2 h
    cases c2 with
    | nil =>
      simp only [List.cons_append, List.nil_append, List.cons.injEq] at h
      right; right
      exact ⟨c1', by rw [h.1]; rfl⟩
    | cons x c2' =>
      simp only [List.cons_append, List.cons.injEq] at h
      rcases ih c2' k2 r2 h.2 with ⟨t, ht⟩ | hc | ⟨t, ht⟩
      · left; exact ⟨t, by rw [h.1, ht]; rfl⟩
      · right; left; rw [h.1, hc]
      · right; right; exact ⟨t, by rw [h.1, ht]; rfl⟩

/-- The read path properly diverges from the write path: they share a
prefix `c` and then continue with different keys. -/
def Diverges (p q : List String) : Prop :=
  ∃ c k1 k2 p' q', k1 ≠ k2 ∧ p = c ++ k1 :: p' ∧ q = c ++ k2 :: q'

/-! ### An invariant carrying the items array through off-path writes -/

/-- The snapshot is truthy, walking the items keys yields exactly the
items array, and the containers along every proper prefix of the items
keys are objects. Established by `setItems` and preserved by every write
whose path properly diverges from the items path. -/
def ItemsIntact (cfg : CacheConfig) (upd : List JVal) (v : JVal) : Prop :=
  truthy v = true
  ∧ getWalk v (splitPath cfg.itemsPath) (varr []) = .ok (varr upd)
  ∧ ∀ c k1 p', splitPath cfg.itemsPath = c ++ k1 :: p' → isObjChainB v c = true

theorem itemsIntact_setItems (cfg : CacheConfig) (s : JVal) (upd : List JVal)
    (hip : cfg.itemsPath ≠ "") : ItemsIntact cfg upd (setItems cfg s upd) := by
  rw [setItems_eq_setKeys cfg s upd hip]
  refine ⟨rfl, ?_, ?_⟩
  · rw [getWalk_setKeys (setItemsBase cfg s) (varr upd) (varr []) (splitPath cfg.itemsPath)
      (splitPath_ne_nil cfg.itemsPath)]
  · intro c k1 p' hdec
    rw [hdec]
    exact isObjChainB_setKeys (setItemsBase cfg s) c k1 p' (varr upd)

theorem itemsIntact_setAtPath (cfg : CacheConfig) (upd : List JVal) (v w : JVal)
    (wpath : String) (hint : ItemsIntact cfg upd v)
    (hdiv : Diverges (splitPath cfg.itemsPath) (splitPath wpath)) :
    ItemsIntact cfg upd (setAtPath v wpath w) := by
  by_cases hw : wpath = ""
  · rwa [setAtPath, if_pos hw]
  · rw [setAtPath, if_neg hw]
    obtain ⟨ht, hread, hchain⟩ := hint
    obtain ⟨cw, kw1, kw2, pw', qw', hkw, hpi, hpw⟩ := hdiv
    refine ⟨rfl, ?_, ?_⟩
    · rw [hpw, hpi]
      rw [hpi] at hread
      rw [getWalk_setKeys_diverge cw kw1 kw2 pw' qw' v w (varr []) hkw
        (hchain cw kw1 pw' hpi)]
      exact hread
    · intro c2 k1' p2' hdec
      rcases decomp_compare cw kw1 pw' c2 k1' p2' (by rw [← hpi, hdec]) with
        ⟨t, htc⟩ | hc | ⟨t, htc⟩
      · -- `c2` runs past the divergence point of the write path: transport the chain
        have hc2 : isObjChainB v c2 = true := hchain c2 k1' p2' hdec
        rw [htc] at hc2 ⊢
        rw [hpw]
        exact isObjChainB_setKeys_diverge cw kw1 kw2 t qw' v w hkw hc2
      · -- `c2` is exactly the shared prefix: the write rebuilds it as objects
        rw [hpw, hc]
        exact isObjChainB_setKeys v cw kw2 qw' w
      · -- the write path runs through the marker of `c2`: the rebuilt chain covers `c2`
        rw [hpw, htc, List.append_assoc]
        exact isObjChainB_setKeys v c2 k1' (t ++ kw2 :: qw') w

theorem itemsIntact_getItems (cfg : CacheConfig) (upd : List JVal) (v : JVal)
    (hip : cfg.itemsPath ≠ "") (hint : ItemsIntact cfg upd v) :
    getItems cfg v = .ok upd := by
  obtain ⟨ht, hread, _⟩ := hint
  unfold getItems
  rw [ht]
  simp only [Bool.true_eq_false, if_false, if_neg hip]
  unfold getAtPath
  rw [ht]
  simp only [Bool.true_eq_false, false_or, if_neg hip]
  rw [hread]

/-! ### C5: delete with no match -/

/-- Counterexample configuration: the total-elements counter path `"p"` is
an ancestor of the items path `"p.q"`. -/
def cfgC5 : CacheConfig := ⟨"p.q", defaultKeyExtractor, some ⟨"p", "", "", ""⟩, vundef⟩

def sC5 : JVal := vobj [("p", vnum 3)]

def rC5 : JVal := vobj [("p", vobj [("q", varr [])])]

/-- C5 counterexample: deleting an absent id indeed performs no pagination
update, but the claim's "every configured pagination counter in the result
reads the same value as in s" fails: `setItems` rebuilds the chain along
the items path, and the configured counter at `"p"` reads 3 in `s` but an
object in the result. -/
theorem C5_counterexample :
    delete cfgC5 sC5 (vnum 99) none = .ok rC5
    ∧ getAtPath sC5 "p" vundef = .ok (vnum 3)
    ∧ getAtPath rC5 "p" vundef = .ok (vobj [("q", varr [])])
    ∧ vnum 3 ≠ vobj [("q", varr [])] :=
  ⟨rfl, rfl, rfl, fun h => JVal.noConfusion h⟩

/-- C5 amended: a delete whose resolved predicate matches no item performs
no pagination update and returns exactly `setItems s (getItems s)`; the
items of the result equal `getItems s` element for element; and a
configured pagination counter reads the same value as in `s` provided its
path properly diverges from the items path and the containers of `s`
along the shared prefix are objects (counter paths overlapping the items
path can read differently, because `setItems` rebuilds that chain). -/
theorem C5_delete_absent_amended (cfg : CacheConfig) (s itemOrId : JVal) (items : List JVal)
    (hget : getItems cfg s = .ok items)
    (hnomatch : ∀ it ∈ items, deleteDefaultMatch cfg itemOrId it = .ok false) :
    delete cfg s itemOrId none = .ok (setItems cfg s items)
    ∧ getItems cfg (setItems cfg s items) = .ok items
    ∧ ∀ (cpath : String) (d : JVal) (c : List String) (k1 k2 : String) (p' q' : List String),
        truthy s = true → cfg.itemsPath ≠ "" →
        splitPath cpath = c ++ k1 :: p' → splitPath cfg.itemsPath = c ++ k2 :: q' →
        k1 ≠ k2 → isObjChainB s c = true →
        getAtPath (setItems cfg s items) cpath d = getAtPath s cpath d := by
  refine ⟨?_, getItems_setItems cfg s items, ?_⟩
  · unfold delete
    rw [hget]
    simp only [Option.getD]
    rw [filterNotM_all_false _ items hnomatch]
    simp
  · intro cpath d c k1 k2 p' q' hs hip hcp hi hk hc
    exact getAtPath_setItems_diverge cfg s items cpath d c k1 k2 p' q' hs hip hcp hi hk hc

def cfgC5w : CacheConfig := ⟨"a.b", defaultKeyExtractor, some ⟨"a.c", "", "", ""⟩, vundef⟩

def itmC5w : JVal := vobj [("id", vnum 1)]

def sC5w : JVal := vobj [("a", vobj [("b", varr [itmC5w]), ("c", vnum 7)])]

/-- C5 witness: one item with id 1, delete id 99; the items survive
unchanged and the diverging counter at `"a.c"` reads the same. -/
theorem C5_delete_absent_amended_witness :
    delete cfgC5w sC5w (vnum 99) none = .ok (setItems cfgC5w sC5w [itmC5w])
    ∧ getItems cfgC5w (setItems cfgC5w sC5w [itmC5w]) = .ok [itmC5w]
    ∧ getAtPath (setItems cfgC5w sC5w [itmC5w]) "a.c" vundef = getAtPath sC5w "a.c" vundef := by
  have h := C5_delete_absent_amended cfgC5w sC5w (vnum 99) [itmC5w] rfl
    (fun it hit => by rw [List.mem_singleton.mp hit]; rfl)
  exact ⟨h.1, h.2.1, h.2.2 "a.c" vundef ["a"] "c" "b" [] [] rfl (by decide) rfl rfl (by decide) rfl⟩

/-! ### C6: update merge semantics -/

def cfgC6 : CacheConfig := ⟨"a.b", defaultKeyExtractor, some ⟨"a", "", "", ""⟩, vundef⟩

def sC6 : JVal := vobj [("a", vnum 5)]

def rC6 : JVal := vobj [("a", vobj [("b", varr [])])]

/-- C6 counterexample: update performs no pagination arithmetic, but the
claim's "update never changes any configured pagination counter" fails
when the counter path overlaps the items path: the configured counter at
`"a"` reads 5 before and an object after. -/
theorem C6_counterexample :
    update cfgC6 sC6 (vobj [("id", vnum 1)]) none = .ok rC6
    ∧ getAtPath sC6 "a" vundef = .ok (vnum 5)
    ∧ getAtPath rC6 "a" vundef = .ok (vobj [("b", varr [])])
    ∧ vnum 5 ≠ vobj [("b", varr [])] :=
  ⟨rfl, rfl, rfl, fun h => JVal.noConfusion h⟩

/-- C6 amended: with a key extractor that succeeds on the partial item
(key `x`) and on every cached item, `update` maps each item whose
extracted key is not strictly equal to `x` to itself (the same value; the
source even keeps the same reference) and each matching item to the
shallow merge `{...item, ...partial}`, writes the array back, and runs no
pagination update; a configured counter reads the same value as in `s`
under the same diverging-path proviso as for delete. -/
theorem C6_update_merge_amended (cfg : CacheConfig) (s upd : JVal) (items : List JVal)
    (kf : JVal → JVal) (x : JVal)
    (hget : getItems cfg s = .ok items)
    (hkx : ∀ it ∈ items, cfg.keyExtractor it = .ok (kf it))
    (hx : cfg.keyExtractor upd = .ok x) :
    update cfg s upd none
      = .ok (setItems cfg s (items.map fun it => if jsStrictEq (kf it) x then shallowMerge it upd else it))
    ∧ getItems cfg (setItems cfg s (items.map fun it => if jsStrictEq (kf it) x then shallowMerge it upd else it))
      = .ok (items.map fun it => if jsStrictEq (kf it) x then shallowMerge it upd else it)
    ∧ ∀ (cpath : String) (d : JVal) (c : List String) (k1 k2 : String) (p' q' : List String),
        truthy s = true → cfg.itemsPath ≠ "" →
        splitPath cpath = c ++ k1 :: p' → splitPath cfg.itemsPath = c ++ k2 :: q' →
        k1 ≠ k2 → isObjChainB s c = true →
        getAtPath (setItems cfg s (items.map fun it => if jsStrictEq (kf it) x then shallowMerge it upd else it)) cpath d
          = getAtPath s cpath d := by
  refine ⟨?_, getItems_setItems cfg s _, ?_⟩
  · unfold update
    rw [hget]
    simp only [Option.getD]
    rw [mapMergeM_of_fn _ upd items (fun it => jsStrictEq (kf it) x)
      (fun it hit => by unfold updateDefaultMatch; rw [hkx it hit, hx])]
  · intro cpath d c k1 k2 p' q' hs hip hcp hi hk hc
    exact getAtPath_setItems_diverge cfg s _ cpath d c k1 k2 p' q' hs hip hcp hi hk hc

/-- The key the default extractor reads, as a pure function (defined on
the object-shaped items the witness uses). -/
def pureIdOf : JVal → JVal
  | vobj f => objGet f "id"
  | _ => vundef

def cfgC6w : CacheConfig := ⟨"list", defaultKeyExtractor, some ⟨"total", "", "", ""⟩, vundef⟩

def itmC6a : JVal := vobj [("id", vnum 1), ("name", vstr "a")]

def itmC6b : JVal := vobj [("id", vnum 2)]

def sC6w : JVal := vobj [("list", varr [itmC6a, itmC6b]), ("total", vnum 2)]

def updC6w : JVal := vobj [("id", vnum 1), ("name", vstr "z")]

/-- C6 witness: item 1 is shallow-merged (its `name` is replaced, its `id`
survives), item 2 is untouched, and the diverging counter at `"total"`
reads the same. -/
theorem C6_update_merge_amended_witness :
    update cfgC6w sC6w updC6w none
      = .ok (setItems cfgC6w sC6w ([itmC6a, itmC6b].map fun it =>
          if jsStrictEq (pureIdOf it) (vnum 1) then shallowMerge it updC6w else it))
    ∧ getItems cfgC6w (setItems cfgC6w sC6w ([itmC6a, itmC6b].map fun it =>
          if jsStrictEq (pureIdOf it) (vnum 1) then shallowMerge it updC6w else it))
      = .ok ([itmC6a, itmC6b].map fun it =>
          if jsStrictEq (pureIdOf it) (vnum 1) then shallowMerge it updC6w else it)
    ∧ getAtPath (setItems cfgC6w sC6w ([itmC6a, itmC6b].map fun it =>
          if jsStrictEq (pureIdOf it) (vnum 1) then shallowMerge it updC6w else it)) "total" vundef
      = getAtPath sC6w "total" vundef := by
  have h := C6_update_merge_amended cfgC6w sC6w updC6w [itmC6a, itmC6b] pureIdOf (vnum 1) rfl
    (fun it hit => by
      rcases List.mem_cons.mp hit with h1 | h1
      · rw [h1]; rfl
      · rw [List.mem_singleton.mp h1]; rfl)
    rfl
  exact ⟨h.1, h.2.1, h.2.2 "total" vundef [] "total" "list" [] [] rfl (by decide) rfl rfl (by decide) rfl⟩

/-! ### C3: pagination consistency -/

/-- `intCeilDiv` agrees with the mathematical ceiling of the exact ratio
for positive divisors. -/
theorem intCeilDiv_eq_ceil (a b : ℤ) (hb : 0 < b) :
    intCeilDiv a b = ⌈(a : ℚ) / (b : ℚ)⌉ := by
  have hbn : ((b.toNat : ℤ)) = b := Int.toNat_of_nonneg hb.le
  have h1 : ⌊((-a : ℤ) : ℚ) / ((b.toNat : ℕ) : ℚ)⌋ = (-a) / (b.toNat : ℤ) :=
    Rat.floor_intCast_div_natCast (-a) b.toNat
  have h2 : (((b.toNat : ℕ) : ℚ)) = (b : ℚ) := by
    have hc := congrArg (fun z : ℤ => (z : ℚ)) hbn
    push_cast at hc
    exact hc
  rw [h2, hbn] at h1
  have h3 : ((-a : ℤ) : ℚ) / (b : ℚ) = -((a : ℚ) / (b : ℚ)) := by push_cast; ring
  rw [h3] at h1
  rw [Int.floor_neg] at h1
  unfold intCeilDiv
  omega

def cfgC3 : CacheConfig := ⟨"items", defaultKeyExtractor, some ⟨"te", "tp", "", "ps"⟩, vundef⟩

def sC3 : JVal := vobj [("items", varr []), ("te", vnum (-2)), ("ps", vnum 1), ("tp", vnum 5)]

def rC3 : JVal :=
  vobj [("items", varr [vobj [("id", vnum 9)]]), ("te", vnum (-1)), ("ps", vnum 1), ("tp", vnum (-1))]

/-- C3 counterexample: all three pagination paths are configured and
pairwise disjoint, yet after an add on a snapshot with `totalElements = -2`
the result reads `totalElements = -1`, `pageSize = 1` and
`totalPages = -1`, while the claim's clamped formula
`ceil(max(0, totalElements) / pageSize)` gives 0: the add path, unlike the
remove path, does not clamp. -/
theorem C3_counterexample :
    add cfgC3 sC3 (vobj [("id", vnum 9)]) .start = .ok rC3
    ∧ getAtPath rC3 "te" vundef = .ok (vnum (-1))
    ∧ getAtPath rC3 "ps" vundef = .ok (vnum 1)
    ∧ getAtPath rC3 "tp" vundef = .ok (vnum (-1))
    ∧ max (0 : ℤ) (-1) = 0
    ∧ ⌈((0 : ℤ) : ℚ) / ((1 : ℤ) : ℚ)⌉ = 0
    ∧ (-1 : ℤ) ≠ 0 := by
  refine ⟨rfl, rfl, rfl, rfl, by decide, ?_, by decide⟩
  norm_num

/-- C3 amended: with all three pagination paths configured, the add
pagination step increments the total and, whenever the page size read
after the increment is a positive number `q` and the total reads `t`,
writes exactly `ceil(t / q)` — unclamped, so a negative total yields a
negative page count — at the total-pages path; the remove pagination step
writes `ceil(max(0, t) / q)`; and a delete that matches nothing performs
no pagination update at all (its result is exactly the re-written items
array). -/
theorem C3_pagination_amended :
    (∀ (cfg : CacheConfig) (pg : PaginationPaths) (s1 r1 : JVal) (t q : ℤ),
      cfg.pagination = some pg → pg.totalElementsPath ≠ "" → pg.totalPagesPath ≠ "" →
      pg.pageSizePath ≠ "" →
      incrementAtPath s1 pg.totalElementsPath 1 = .ok r1 →
      getAtPath r1 pg.pageSizePath (vnum 0) = .ok (vnum q) →
      getAtPath r1 pg.totalElementsPath (vnum 0) = .ok (vnum t) →
      0 < q →
      updatePaginationOnAdd cfg s1 1
        = .ok (setAtPath r1 pg.totalPagesPath (vnum (intCeilDiv t q)))
      ∧ getAtPath (setAtPath r1 pg.totalPagesPath (vnum (intCeilDiv t q)))
          pg.totalPagesPath vundef = .ok (vnum (intCeilDiv t q))
      ∧ intCeilDiv t q = ⌈(t : ℚ) / (q : ℚ)⌉)
    ∧ (∀ (cfg : CacheConfig) (pg : PaginationPaths) (s1 r1 : JVal) (r t q : ℤ),
      cfg.pagination = some pg → pg.totalElementsPath ≠ "" → pg.totalPagesPath ≠ "" →
      pg.pageSizePath ≠ "" →
      incrementAtPath s1 pg.totalElementsPath (-r) = .ok r1 →
      getAtPath r1 pg.pageSizePath (vnum 0) = .ok (vnum q) →
      getAtPath r1 pg.totalElementsPath (vnum 0) = .ok (vnum t) →
      0 < q →
      updatePaginationOnRemove cfg s1 r
        = .ok (setAtPath r1 pg.totalPagesPath (vnum (intCeilDiv (max 0 t) q)))
      ∧ getAtPath (setAtPath r1 pg.totalPagesPath (vnum (intCeilDiv (max 0 t) q)))
          pg.totalPagesPath vundef = .ok (vnum (intCeilDiv (max 0 t) q))
      ∧ intCeilDiv (max 0 t) q = ⌈((max 0 t : ℤ) : ℚ) / (q : ℚ)⌉)
    ∧ (∀ (cfg : CacheConfig) (s itemOrId : JVal) (items : List JVal),
      getItems cfg s = .ok items →
      (∀ it ∈ items, deleteDefaultMatch cfg itemOrId it = .ok false) →
      delete cfg s itemOrId none = .ok (setItems cfg s items)) := by
  refine ⟨?_, ?_, ?_⟩
  · intro cfg pg s1 r1 t q hpg hte htp hps hinc hq ht h0q
    have hq0 : q ≠ 0 := ne_of_gt h0q
    have hgt : jsGtZero (vnum q) = true := by simp [jsGtZero, jsToNum, h0q]
    have hcd : jsCeilDiv (vnum t) (vnum q) = vnum (intCeilDiv t q) := by
      simp [jsCeilDiv, jsToNum, hq0]
    refine ⟨?_, ?_, intCeilDiv_eq_ceil t q h0q⟩
    · unfold updatePaginationOnAdd
      rw [hpg]
      simp only [if_pos hte, hinc, hq, ht, hgt, if_true, hcd]
      exact if_pos ⟨htp, hps, hte⟩
    · rw [getAtPath_setAtPath r1 (vnum (intCeilDiv t q)) vundef pg.totalPagesPath htp]
  · intro cfg pg s1 r1 r t q hpg hte htp hps hinc hq ht h0q
    have hq0 : q ≠ 0 := ne_of_gt h0q
    have hgt : jsGtZero (vnum q) = true := by simp [jsGtZero, jsToNum, h0q]
    have hm : jsMax0 (vnum t) = vnum (max 0 t) := by simp [jsMax0, jsToNum]
    have hcd : jsCeilDiv (vnum (max 0 t)) (vnum q) = vnum (intCeilDiv (max 0 t) q) := by
      simp [jsCeilDiv, jsToNum, hq0]
    refine ⟨?_, ?_, intCeilDiv_eq_ceil (max 0 t) q h0q⟩
    · unfold updatePaginationOnRemove
      rw [hpg]
      simp only [if_pos hte, hinc, hq, ht, hgt, if_true, hm, hcd]
      exact if_pos ⟨htp, hps, hte⟩
    · rw [getAtPath_setAtPath r1 (vnum (intCeilDiv (max 0 t) q)) vundef pg.totalPagesPath htp]
  · intro cfg s itemOrId items hget hnomatch
    unfold delete
    rw [hget]
    simp only [Option.getD]
    rw [filterNotM_all_false _ items hnomatch]
    simp

def cfgC3w : CacheConfig := ⟨"items", defaultKeyExtractor, some ⟨"te", "tp", "", "ps"⟩, vundef⟩

def s1C3w : JVal := vobj [("te", vnum 4), ("ps", vnum 2), ("tp", vnum 0)]

def r1C3w : JVal := vobj [("te", vnum 5), ("ps", vnum 2), ("tp", vnum 0)]

def s1C3r : JVal := vobj [("te", vnum 4), ("ps", vnum 2), ("tp", vnum 2)]

def r1C3r : JVal := vobj [("te", vnum 3), ("ps", vnum 2), ("tp", vnum 2)]

def itmC3d : JVal := vobj [("id", vnum 1)]

def sC3d : JVal := vobj [("items", varr [itmC3d]), ("te", vnum 1), ("ps", vnum 2), ("tp", vnum 1)]

/-- C3 witness: concrete add step (total 4→5, page size 2, pages ⌈5/2⌉),
remove step (total 4→3, pages ⌈3/2⌉), and a no-match delete that leaves
pagination alone. -/
theorem C3_pagination_amended_witness :
    updatePaginationOnAdd cfgC3w s1C3w 1 = .ok (setAtPath r1C3w "tp" (vnum (intCeilDiv 5 2)))
    ∧ updatePaginationOnRemove cfgC3w s1C3r 1 = .ok (setAtPath r1C3r "tp" (vnum (intCeilDiv (max 0 3) 2)))
    ∧ delete cfgC3w sC3d (vnum 99) none = .ok (setItems cfgC3w sC3d [itmC3d]) := by
  refine ⟨?_, ?_, ?_⟩
  · exact (C3_pagination_amended.1 cfgC3w ⟨"te", "tp", "", "ps"⟩ s1C3w r1C3w 5 2
      rfl (by decide) (by decide) (by decide) rfl rfl rfl (by decide)).1
  · exact (C3_pagination_amended.2.1 cfgC3w ⟨"te", "tp", "", "ps"⟩ s1C3r r1C3r 1 3 2
      rfl (by decide) (by decide) (by decide) rfl rfl rfl (by decide)).1
  · exact C3_pagination_amended.2.2 cfgC3w sC3d (vnum 99) [itmC3d] rfl
      (fun it hit => by rw [List.mem_singleton.mp hit]; rfl)

/-! ### C4: add inserts exactly one item -/

def cfgC4 : CacheConfig := ⟨"items", defaultKeyExtractor, some ⟨"m.t.x", "", "", ""⟩, vundef⟩

def sC4 : JVal := vobj [("items", varr [])]

/-- C4 counterexample: the snapshot has an empty items array, but `add`
produces no snapshot at all: the pagination step reads the configured
total-elements path `"m.t.x"`, whose first segment is missing, so the read
throws (`getAtPath` guards only `null`), the whole updater fails over to
invalidate, and the cached items array is not extended by one. -/
theorem C4_counterexample :
    getItems cfgC4 sC4 = .ok []
    ∧ add cfgC4 sC4 (vobj [("id", vnum 1)]) .start = .error () :=
  ⟨rfl, rfl⟩

/-- The pagination paths do not interfere with the items path: when
pagination is configured, the items path is non-empty and each configured
written path (total elements, total pages) properly diverges from it. -/
def PagSafe (cfg : CacheConfig) : Prop :=
  match cfg.pagination with
  | none => True
  | some pg => cfg.itemsPath ≠ ""
      ∧ (pg.totalElementsPath ≠ "" →
          Diverges (splitPath cfg.itemsPath) (splitPath pg.totalElementsPath))
      ∧ (pg.totalPagesPath ≠ "" →
          Diverges (splitPath cfg.itemsPath) (splitPath pg.totalPagesPath))

/-- C4 amended: whenever `getItems s` succeeds, `add` completes without
failing over to invalidate, and the configured pagination paths do not
interfere with the items path, the items of the result are exactly the new
item prepended (position `start`) or appended (position `end`) to the old
items — length + 1, the new item at index 0 resp. the last index, the
prior items in order — and the result is produced by handing exactly 1 as
the added count to the pagination update. -/
theorem C4_add_amended (cfg : CacheConfig) (s i r : JVal) (pos : InsertPosition)
    (items : List JVal)
    (hget : getItems cfg s = .ok items)
    (hadd : add cfg s i pos = .ok r)
    (hsafe : PagSafe cfg) :
    getItems cfg r = .ok (insertItem i items pos)
    ∧ updatePaginationOnAdd cfg (setItems cfg s (insertItem i items pos)) 1 = .ok r := by
  have hadd' : updatePaginationOnAdd cfg (setItems cfg s (insertItem i items pos)) 1
      = .ok r := by
    unfold add at hadd
    rw [hget] at hadd
    exact hadd
  refine ⟨?_, hadd'⟩
  unfold updatePaginationOnAdd at hadd'
  split at hadd'
  next heq =>
    simp only [Except.ok.injEq] at hadd'
    rw [← hadd']
    exact getItems_setItems cfg s _
  next pg heq =>
    have hs2 : cfg.itemsPath ≠ ""
        ∧ (pg.totalElementsPath ≠ "" →
            Diverges (splitPath cfg.itemsPath) (splitPath pg.totalElementsPath))
        ∧ (pg.totalPagesPath ≠ "" →
            Diverges (splitPath cfg.itemsPath) (splitPath pg.totalPagesPath)) := by
      unfold PagSafe at hsafe
      rw [heq] at hsafe
      exact hsafe
    obtain ⟨hip, hdte, hdtp⟩ := hs2
    have hint0 : ItemsIntact cfg (insertItem i items pos)
        (setItems cfg s (insertItem i items pos)) :=
      itemsIntact_setItems cfg s _ hip
    split at hadd'
    next e heq2 => exact absurd hadd' (by simp)
    next r1 heq2 =>
      have hr1 : ItemsIntact cfg (insertItem i items pos) r1 := by
        by_cases hte : pg.totalElementsPath = ""
        · rw [if_neg (fun h => h hte)] at heq2
          simp only [Except.ok.injEq] at heq2
          rw [← heq2]
          exact hint0
        · rw [if_pos hte] at heq2
          unfold incrementAtPath at heq2
          split at heq2
          next e heq3 => exact absurd heq2 (by simp)
          next cur heq3 =>
            simp only [Except.ok.injEq] at heq2
            rw [← heq2]
            exact itemsIntact_setAtPath cfg _ _ _ _ hint0 (hdte hte)
      split at hadd'
      next hguard =>
        split at hadd'
        next e heq4 => exact absurd hadd' (by simp)
        next pageSize heq4 =>
          split at hadd'
          next e heq5 => exact absurd hadd' (by simp)
          next totalElements heq5 =>
            split at hadd'
            next hgt =>
              simp only [Except.ok.injEq] at hadd'
              rw [← hadd']
              exact itemsIntact_getItems cfg _ _ hip
                (itemsIntact_setAtPath cfg _ _ _ _ hr1 (hdtp hguard.1))
            next hgt =>
              simp only [Except.ok.injEq] at hadd'
              rw [← hadd']
              exact itemsIntact_getItems cfg _ _ hip hr1
      next hguard =>
        simp only [Except.ok.injEq] at hadd'
        rw [← hadd']
        exact itemsIntact_getItems cfg _ _ hip hr1

def cfgC4w : CacheConfig :=
  ⟨"data.content", defaultKeyExtractor, some ⟨"data.te", "data.tp", "", "data.ps"⟩, vundef⟩

def itmC4w : JVal := vobj [("id", vnum 1)]

def newC4w : JVal := vobj [("id", vnum 2)]

def sC4w : JVal :=
  vobj [("data", vobj [("content", varr [itmC4w]), ("te", vnum 1), ("tp", vnum 1), ("ps", vnum 10)])]

def rC4w : JVal :=
  vobj [("data", vobj [("content", varr [newC4w, itmC4w]), ("te", vnum 2), ("tp", vnum 1), ("ps", vnum 10)])]

/-- C4 witness: a successful add at `start` with non-interfering pagination
paths: the result's items are the new item prepended, totals go 1 → 2 and
`totalPages = ceil(2/10) = 1`. -/
theorem C4_add_amended_witness :
    getItems cfgC4w rC4w = .ok (insertItem newC4w [itmC4w] .start)
    ∧ updatePaginationOnAdd cfgC4w
        (setItems cfgC4w sC4w (insertItem newC4w [itmC4w] .start)) 1 = .ok rC4w :=
  C4_add_amended cfgC4w sC4w newC4w rC4w .start [itmC4w] rfl rfl
    ⟨by decide, fun _ => ⟨["data"], "content", "te", [], [], by decide, rfl, rfl⟩,
     fun _ => ⟨["data"], "content", "tp", [], [], by decide, rfl, rfl⟩⟩

/-! ### C9: clear -/

def cfgC9 : CacheConfig := ⟨"a.b.c", defaultKeyExtractor, some ⟨"a", "", "", ""⟩, vundef⟩

/-- C9 counterexample: with the total-elements path `"a"` an ancestor of
the items path `"a.b.c"`, `clear` first builds `{a:{b:{c:[]}}}` and then
overwrites `a` with the counter 0, destroying the items chain: reading the
items of the result does not give `[]` — it throws. -/
theorem C9_counterexample :
    clear cfgC9 vnull = vobj [("a", vnum 0)]
    ∧ getItems cfgC9 (clear cfgC9 vnull) = .error () :=
  ⟨rfl, rfl⟩

/-- The two counter paths written by `clear` do not interfere with the
items path, nor (unless equal) with each other. -/
def ClearSafe (cfg : CacheConfig) : Prop :=
  match cfg.pagination with
  | none => True
  | some pg =>
      (pg.totalElementsPath ≠ "" → cfg.itemsPath ≠ "" →
        Diverges (splitPath cfg.itemsPath) (splitPath pg.totalElementsPath))
      ∧ (pg.totalPagesPath ≠ "" → cfg.itemsPath ≠ "" →
        Diverges (splitPath cfg.itemsPath) (splitPath pg.totalPagesPath))
      ∧ (pg.totalElementsPath ≠ "" → pg.totalPagesPath ≠ "" →
        pg.totalPagesPath = pg.totalElementsPath
          ∨ Diverges (splitPath pg.totalElementsPath) (splitPath pg.totalPagesPath))

theorem clear_eq_none (cfg : CacheConfig) (s : JVal) (hp : cfg.pagination = none) :
    clear cfg s = setItems cfg s [] := by
  unfold clear
  rw [hp]

theorem clear_eq_some (cfg : CacheConfig) (pg : PaginationPaths) (s : JVal)
    (hp : cfg.pagination = some pg) :
    clear cfg s =
      (if pg.totalPagesPath ≠ ""
        then setAtPath
          (if pg.totalElementsPath ≠ ""
            then setAtPath (setItems cfg s []) pg.totalElementsPath (vnum 0)
            else setItems cfg s [])
          pg.totalPagesPath (vnum 0)
        else
          (if pg.totalElementsPath ≠ ""
            then setAtPath (setItems cfg s []) pg.totalElementsPath (vnum 0)
            else setItems cfg s [])) := by
  unfold clear
  rw [hp]

theorem setAtPath_ne (o w : JVal) (p : String) (hp : p ≠ "") :
    setAtPath o p w = setKeys o (splitPath p) w := by
  rw [setAtPath, if_neg hp]

/-- `getItems` with an empty configured items path returns `[]` on any
object (objects are not arrays). -/
theorem getItems_vobj_empty (cfg : CacheConfig) (f : List (String × JVal))
    (h : cfg.itemsPath = "") : getItems cfg (vobj f) = .ok [] := by
  simp [getItems, truthy, h]

/-- A read along a path that properly diverges from a written path is
unchanged by `setAtPath`, given object containers along the shared
prefix. -/
theorem getAtPath_setAtPath_diverge (o w : JVal) (rpath wpath : String) (d : JVal)
    (c : List String) (k1 k2 : String) (p' q' : List String)
    (ho : truthy o = true) (hr : rpath ≠ "")
    (hrp : splitPath rpath = c ++ k1 :: p') (hwp : splitPath wpath = c ++ k2 :: q')
    (hk : k1 ≠ k2) (hc : isObjChainB o c = true) :
    getAtPath (setAtPath o wpath w) rpath d = getAtPath o rpath d := by
  by_cases hw : wpath = ""
  · rw [setAtPath, if_pos hw]
  · rw [setAtPath, if_neg hw]
    have htr : truthy (setKeys o (splitPath wpath) w) = true := rfl
    unfold getAtPath
    rw [htr, ho]
    simp only [Bool.true_eq_false, false_or, if_neg hr]
    rw [hrp, hwp]
    exact getWalk_setKeys_diverge c k1 k2 p' q' o w d hk hc

/-- C9 amended: provided the configured total-elements and total-pages
paths properly diverge from the items path, and from each other (or
coincide), `clear` empties the items array and each configured counter
reads 0 in the result. With overlapping paths the later counter writes can
destroy the freshly built items chain (the counterexample even makes the
items read throw). -/
theorem C9_clear_amended (cfg : CacheConfig) (s : JVal) (hsafe : ClearSafe cfg) :
    getItems cfg (clear cfg s) = .ok []
    ∧ ∀ pg, cfg.pagination = some pg →
        (pg.totalElementsPath ≠ "" →
          getAtPath (clear cfg s) pg.totalElementsPath vundef = .ok (vnum 0))
        ∧ (pg.totalPagesPath ≠ "" →
          getAtPath (clear cfg s) pg.totalPagesPath vundef = .ok (vnum 0)) := by
  cases hp : cfg.pagination with
  | none =>
    refine ⟨?_, ?_⟩
    · rw [clear_eq_none cfg s hp]
      exact getItems_setItems cfg s []
    · intro pg hpg
      exact absurd hpg (by simp)
  | some pg =>
    have hs2 : (pg.totalElementsPath ≠ "" → cfg.itemsPath ≠ "" →
          Diverges (splitPath cfg.itemsPath) (splitPath pg.totalElementsPath))
        ∧ (pg.totalPagesPath ≠ "" → cfg.itemsPath ≠ "" →
          Diverges (splitPath cfg.itemsPath) (splitPath pg.totalPagesPath))
        ∧ (pg.totalElementsPath ≠ "" → pg.totalPagesPath ≠ "" →
          pg.totalPagesPath = pg.totalElementsPath
            ∨ Diverges (splitPath pg.totalElementsPath) (splitPath pg.totalPagesPath)) := by
      unfold ClearSafe at hsafe
      rw [hp] at hsafe
      exact hsafe
    obtain ⟨hdte, hdtp, hdtetp⟩ := hs2
    rw [clear_eq_some cfg pg s hp]
    by_cases hte : pg.totalElementsPath = "" <;> by_cases htp : pg.totalPagesPath = ""
    · -- neither counter configured
      rw [if_neg (fun h => h htp), if_neg (fun h => h hte)]
      refine ⟨getItems_setItems cfg s [], ?_⟩
      intro pg' hpg'
      have hpg2 : pg' = pg := by injection hpg' with h; exact h.symm
      rw [hpg2]
      exact ⟨fun h => absurd hte h, fun h => absurd htp h⟩
    · -- only total pages configured
      rw [if_pos htp, if_neg (fun h => h hte)]
      refine ⟨?_, ?_⟩
      · by_cases hip : cfg.itemsPath = ""
        · rw [setItems_empty_path cfg s [] hip, setAtPath_ne _ (vnum 0) _ htp]
          exact getItems_vobj_empty cfg _ hip
        · obtain ⟨c, k1, k2, p', q', hk, hdp1, hdp2⟩ := hdtp htp hip
          exact itemsIntact_getItems cfg [] _ hip
            (itemsIntact_setAtPath cfg [] _ (vnum 0) pg.totalPagesPath
              (itemsIntact_setItems cfg s [] hip) ⟨c, k1, k2, p', q', hk, hdp1, hdp2⟩)
      · intro pg' hpg'
        have hpg2 : pg' = pg := by injection hpg' with h; exact h.symm
        rw [hpg2]
        refine ⟨fun h => absurd hte h, fun _ => ?_⟩
        rw [getAtPath_setAtPath (setItems cfg s []) (vnum 0) vundef pg.totalPagesPath htp]
    · -- only total elements configured
      rw [if_neg (fun h => h htp), if_pos hte]
      refine ⟨?_, ?_⟩
      · by_cases hip : cfg.itemsPath = ""
        · rw [setItems_empty_path cfg s [] hip, setAtPath_ne _ (vnum 0) _ hte]
          exact getItems_vobj_empty cfg _ hip
        · obtain ⟨c, k1, k2, p', q', hk, hdp1, hdp2⟩ := hdte hte hip
          exact itemsIntact_getItems cfg [] _ hip
            (itemsIntact_setAtPath cfg [] _ (vnum 0) pg.totalElementsPath
              (itemsIntact_setItems cfg s [] hip) ⟨c, k1, k2, p', q', hk, hdp1, hdp2⟩)
      · intro pg' hpg'
        have hpg2 : pg' = pg := by injection hpg' with h; exact h.symm
        rw [hpg2]
        refine ⟨fun _ => ?_, fun h => absurd htp h⟩
        rw [getAtPath_setAtPath (setItems cfg s []) (vnum 0) vundef pg.totalElementsPath hte]
    · -- both counters configured
      rw [if_pos htp, if_pos hte]
      refine ⟨?_, ?_⟩
      · by_cases hip : cfg.itemsPath = ""
        · rw [setItems_empty_path cfg s [] hip, setAtPath_ne _ (vnum 0) _ hte,
            setAtPath_ne _ (vnum 0) _ htp]
          exact getItems_vobj_empty cfg _ hip
        · exact itemsIntact_getItems cfg [] _ hip
            (itemsIntact_setAtPath cfg [] _ (vnum 0) pg.totalPagesPath
              (itemsIntact_setAtPath cfg [] _ (vnum 0) pg.totalElementsPath
                (itemsIntact_setItems cfg s [] hip) (hdte hte hip)) (hdtp htp hip))
      · intro pg' hpg'
        have hpg2 : pg' = pg := by injection hpg' with h; exact h.symm
        rw [hpg2]
        refine ⟨fun _ => ?_, fun _ => ?_⟩
        · rcases hdtetp hte htp with heq | ⟨c, k1, k2, p', q', hk, hdp1, hdp2⟩
          · rw [heq]
            rw [getAtPath_setAtPath _ (vnum 0) vundef pg.totalElementsPath hte]
          · rw [getAtPath_setAtPath_diverge _ (vnum 0) pg.totalElementsPath pg.totalPagesPath
              vundef c k1 k2 p' q' ?_ hte hdp1 hdp2 hk ?_]
            · rw [getAtPath_setAtPath (setItems cfg s []) (vnum 0) vundef pg.totalElementsPath hte]
            · rw [setAtPath_ne _ (vnum 0) _ hte]
              rfl
            · rw [setAtPath_ne _ (vnum 0) _ hte, hdp1]
              exact isObjChainB_setKeys (setItems cfg s []) c k1 p' (vnum 0)
        · rw [getAtPath_setAtPath _ (vnum 0) vundef pg.totalPagesPath htp]

def cfgC9w : CacheConfig :=
  ⟨"data.content", defaultKeyExtractor, some ⟨"data.te", "data.tp", "", "data.ps"⟩, vundef⟩

def sC9w : JVal :=
  vobj [("data", vobj [("content", varr [vobj [("id", vnum 1)]]), ("te", vnum 1), ("tp", vnum 1), ("ps", vnum 10)])]

/-- C9 witness: with pairwise non-interfering paths, clear empties the
items and both configured counters read 0. -/
theorem C9_clear_amended_witness :
    getItems cfgC9w (clear cfgC9w sC9w) = .ok []
    ∧ getAtPath (clear cfgC9w sC9w) "data.te" vundef = .ok (vnum 0)
    ∧ getAtPath (clear cfgC9w sC9w) "data.tp" vundef = .ok (vnum 0) := by
  have h := C9_clear_amended cfgC9w sC9w
    ⟨fun _ _ => ⟨["data"], "content", "te", [], [], by decide, rfl, rfl⟩,
     fun _ _ => ⟨["data"], "content", "tp", [], [], by decide, rfl, rfl⟩,
     fun _ _ => Or.inr ⟨["data"], "te", "tp", [], [], by decide, rfl, rfl⟩⟩
  have h2 := h.2 ⟨"data.te", "data.tp", "", "data.ps"⟩ rfl
  exact ⟨h.1, h2.1 (by decide), h2.2 (by decide)⟩

/-! ### C10: default key extractor and items lacking an id -/

/-- C10: with the default key extractor and no custom matcher, a target
object without an `id` field extracts `undefined`, and since
`undefined === undefined`, the predicate built by `update`/`delete`
matches every cached item whose `id` access also yields `undefined`: if
all items lack an `id`, update shallow-merges into all of them and delete
removes all of them — neither matches nothing nor raises. -/
theorem C10_default_extractor_missing_id (cfg : CacheConfig) (s t : JVal)
    (tf : List (String × JVal)) (items : List JVal)
    (hkx : cfg.keyExtractor = defaultKeyExtractor)
    (hpag : cfg.pagination = none)
    (ht : t = vobj tf) (htid : objGet tf "id" = vundef)
    (hget : getItems cfg s = .ok items)
    (hitems : ∀ it ∈ items, jsGetProp it "id" = .ok vundef) :
    (∀ it ∈ items, updateDefaultMatch cfg t it = .ok true)
    ∧ (∀ it ∈ items, deleteDefaultMatch cfg t it = .ok true)
    ∧ update cfg s t none = .ok (setItems cfg s (items.map fun it => shallowMerge it t))
    ∧ delete cfg s t none = .ok (setItems cfg s []) := by
  have htread : cfg.keyExtractor t = .ok vundef := by
    rw [hkx, ht]
    unfold defaultKeyExtractor
    simp [jsGetProp, htid]
  have hmu : ∀ it ∈ items, updateDefaultMatch cfg t it = .ok true := by
    intro it hit
    unfold updateDefaultMatch
    rw [hkx]
    unfold defaultKeyExtractor
    rw [hitems it hit]
    rw [hkx] at htread
    unfold defaultKeyExtractor at htread
    rw [htread]
    rfl
  have hmd : ∀ it ∈ items, deleteDefaultMatch cfg t it = .ok true := by
    intro it hit
    unfold deleteDefaultMatch
    have hto : typeofObject t = true := by rw [ht]; rfl
    rw [if_pos hto, hkx]
    unfold defaultKeyExtractor
    rw [hitems it hit]
    rw [hkx] at htread
    unfold defaultKeyExtractor at htread
    rw [htread]
    rfl
  refine ⟨hmu, hmd, ?_, ?_⟩
  · unfold update
    rw [hget]
    simp only [Option.getD]
    rw [mapMergeM_of_fn _ t items (fun _ => true) hmu]
    simp
  · unfold delete
    rw [hget]
    simp only [Option.getD]
    rw [filterNotM_all_true _ items hmd]
    simp only []
    by_cases hl : 0 < items.length - ([] : List JVal).length
    · rw [if_pos hl]
      unfold updatePaginationOnRemove
      rw [hpag]
    · rw [if_neg hl]

def cfgC10w : CacheConfig := ⟨"items", defaultKeyExtractor, none, vundef⟩

def itmC10a : JVal := vobj [("name", vstr "a")]

def itmC10b : JVal := vobj [("name", vstr "b")]

def sC10w : JVal := vobj [("items", varr [itmC10a, itmC10b])]

def tC10 : JVal := vobj [("flag", vbool true)]

/-- C10 witness: two items without ids; an update target without an id
merges into both and a delete target without an id removes both. -/
theorem C10_default_extractor_missing_id_witness :
    update cfgC10w sC10w tC10 none
      = .ok (setItems cfgC10w sC10w ([itmC10a, itmC10b].map fun it => shallowMerge it tC10))
    ∧ delete cfgC10w sC10w tC10 none = .ok (setItems cfgC10w sC10w []) := by
  have h := C10_default_extractor_missing_id cfgC10w sC10w tC10 [("flag", vbool true)]
    [itmC10a, itmC10b] rfl rfl rfl rfl rfl
    (fun it hit => by
      rcases List.mem_cons.mp hit with h1 | h1
      · rw [h1]; rfl
      · rw [List.mem_singleton.mp h1]; rfl)
  exact ⟨h.2.2.1, h.2.2.2⟩

/-! ### Heap model of `setAtPath` for structural sharing (C7)

Reference identity is not observable in the plain value model, so
`setAtPath` is re-embedded over an explicit heap: a list of object cells
addressed by position. An object value is a reference (`vref`) into the
heap; the claims about mutation and sharing become statements about which
addresses the operation writes. Arrays and strings do not occur inside the
object graphs this model covers (the loop replaces them with `{}` anyway
unless object-typed, and the claim quantifies over objects). -/

inductive HVal where
  | vnull
  | vundef
  | vbool (b : Bool)
  | vnum (n : ℤ)
  | vnan
  | vstr (s : String)
  | vref (a : Nat)
deriving DecidableEq

/-- An object cell: insertion-ordered fields. -/
abbrev HObj := List (String × HVal)

def truthyH : HVal → Bool
  | .vnull => false
  | .vundef => false
  | .vbool b => b
  | .vnum n => n != 0
  | .vnan => false
  | .vstr s => s != ""
  | .vref _ => true

def hobjGet : HObj → String → HVal
  | [], _ => .vundef
  | (k', v) :: fs, k => if k' = k then v else hobjGet fs k

def hobjSet : HObj → String → HVal → HObj
  | [], k, v => [(k, v)]
  | (k', w) :: fs, k, v => if k' = k then (k', v) :: fs else (k', w) :: hobjSet fs k v

/-- The cell stored at address `a` (dangling addresses read as `{}`). -/
def cellAt (h : List HObj) (a : Nat) : HObj :=
  (h.get? a).getD []

/-- Mutate one field of the cell at address `a`. `setAtPath` only ever
applies this to cells it freshly allocated. -/
def updateCell (h : List HObj) (a : Nat) (k : String) (v : HVal) : List HObj :=
  h.set a (hobjSet (cellAt h a) k v)

/-- `!current[key] || typeof current[key] !== 'object' ? {} : {...current[key]}`:
only a reference (a truthy object) is cloned; `null`, `undefined` and
primitives are replaced by a fresh empty object. -/
def cloneCellH (h : List HObj) (child : HVal) : HObj :=
  match child with
  | .vref b => cellAt h b
  | _ => []

/-- The loop of `setAtPath` over the heap: for every key but the last,
allocate a clone (or `{}`) of the nested container as a fresh cell, link
it from the current cell, and descend; assign the value at the last key. -/
def setChainH (h : List HObj) (cur : Nat) : List String → HVal → List HObj
  | [], _ => h
  | [k], v => updateCell h cur k v
  | k :: k2 :: rest, v =>
    setChainH (updateCell (h ++ [cloneCellH h (hobjGet (cellAt h cur) k)]) cur k
      (.vref h.length)) h.length (k2 :: rest) v

/-- `setAtPath(obj, path, value)` over the heap: allocate the root clone
(`{...obj}`, or `{}` for a falsy root) and run the chain loop. Returns the
extended heap and a reference to the new root. -/
def setAtPathH (h : List HObj) (obj : HVal) (path : String) (v : HVal) :
    List HObj × HVal :=
  if path = "" then (h, obj)
  else
    ((setChainH (h ++ [if truthyH obj then cloneCellH h obj else []]) h.length
      (splitPath path) v), .vref h.length)

/-- Pure observation: follow keys through the heap (a non-reference reads
every property as `undefined`). Used to name "the subtree of `o` reached
via `q`". -/
def hWalk (h : List HObj) : HVal → List String → HVal
  | v, [] => v
  | .vref a, k :: ks => hWalk h (hobjGet (cellAt h a) k) ks
  | _, _ :: ks => hWalk h .vundef ks

/-- Every reference inside the value stays below `n`. -/
def refBoundB (n : Nat) : HVal → Bool
  | .vref b => decide (b < n)
  | _ => true

/-- A closed heap: every field of every cell points inside the heap. -/
def wfHeapB (h : List HObj) : Bool :=
  h.all fun cell => cell.all fun kv => refBoundB h.length kv.2

theorem hobjGet_hobjSet_self (f : HObj) (k : String) (v : HVal) :
    hobjGet (hobjSet f k v) k = v := by
  induction f with
  | nil => simp [hobjSet, hobjGet]
  | cons kv fs ih =>
    obtain ⟨k', w⟩ := kv
    by_cases h : k' = k <;> simp [hobjSet, hobjGet, h, ih]

theorem hobjGet_hobjSet_ne (f : HObj) (k k' : String) (v : HVal)
    (h : k ≠ k') : hobjGet (hobjSet f k v) k' = hobjGet f k' := by
  induction f with
  | nil => simp [hobjSet, hobjGet, h]
  | cons kv fs ih =>
    obtain ⟨k'', w⟩ := kv
    by_cases h2 : k'' = k
    · subst h2
      simp [hobjSet, hobjGet, h]
    · simp [hobjSet, hobjGet, h2, ih]

theorem cellAt_append_self (h : List HObj) (c : HObj) :
    cellAt (h ++ [c]) h.length = c := by
  unfold cellAt
  rw [List.get?_concat_length]
  rfl

theorem cellAt_append_lt (h : List HObj) (c : HObj) (i : Nat) (hi : i < h.length) :
    cellAt (h ++ [c]) i = cellAt h i := by
  unfold cellAt
  rw [List.get?_append hi]

theorem cellAt_updateCell_ne (h : List HObj) (a : Nat) (k : String) (v : HVal)
    (i : Nat) (hi : a ≠ i) : cellAt (updateCell h a k v) i = cellAt h i := by
  unfold updateCell cellAt
  rw [List.get?_set_ne _ _ hi]

theorem cellAt_updateCell_self (h : List HObj) (a : Nat) (k : String) (v : HVal)
    (ha : a < h.length) :
    cellAt (updateCell h a k v) a = hobjSet (cellAt h a) k v := by
  unfold updateCell cellAt
  rw [List.get?_set_eq_of_lt _ ha]
  rfl

/-- Allocations and writes of the chain loop never touch addresses below
`n` when the loop starts at an address `≥ n` inside a heap of length
`≥ n`: the cells of the original heap prefix are never mutated. -/
theorem setChainH_get?_preserve (ks : List String) (v : HVal) :
    ∀ (h : List HObj) (cur n : Nat), n ≤ cur → n ≤ h.length →
    ∀ i, i < n → (setChainH h cur ks v).get? i = h.get? i := by
  induction ks with
  | nil => intro h cur n _ _ i _; rfl
  | cons k ks ih =>
    cases ks with
    | nil =>
      intro h cur n hnc _ i hi
      unfold setChainH updateCell
      exact List.get?_set_ne _ _ (Nat.lt_of_lt_of_le hi hnc).ne'
    | cons k2 rest =>
      intro h cur n hnc hnh i hi
      show (setChainH (updateCell (h ++ [cloneCellH h (hobjGet (cellAt h cur) k)]) cur k
          (.vref h.length)) h.length (k2 :: rest) v).get? i = h.get? i
      rw [ih _ h.length n hnh (by simp [updateCell]; omega) i hi]
      unfold updateCell
      rw [List.get?_set_ne _ _ (Nat.lt_of_lt_of_le hi hnc).ne',
        List.get?_append (Nat.lt_of_lt_of_le hi hnh)]

theorem setChainH_length (ks : List String) (v : HVal) :
    ∀ (h : List HObj) (cur : Nat),
    (setChainH h cur ks v).length = h.length + (ks.length - 1) := by
  induction ks with
  | nil => intro h cur; simp [setChainH]
  | cons k ks ih =>
    cases ks with
    | nil => intro h cur; simp [setChainH, updateCell]
    | cons k2 rest =>
      intro h cur
      show (setChainH (updateCell (h ++ [cloneCellH h (hobjGet (cellAt h cur) k)]) cur k
          (.vref h.length)) h.length (k2 :: rest) v).length = _
      rw [ih]
      simp [updateCell]
      omega

theorem hobjGet_refBound (n : Nat) (cell : HObj) (k : String)
    (h : cell.all (fun kv => refBoundB n kv.2) = true) :
    refBoundB n (hobjGet cell k) = true := by
  induction cell with
  | nil => rfl
  | cons kv fs ih =>
    obtain ⟨k', w⟩ := kv
    simp only [List.all_cons, Bool.and_eq_true] at h
    by_cases hk : k' = k
    · simpa [hobjGet, hk] using h.1
    · simpa [hobjGet, hk] using ih h.2

theorem wfHeapB_cell (h : List HObj) (b : Nat) (hwf : wfHeapB h = true) :
    (cellAt h b).all (fun kv => refBoundB h.length kv.2) = true := by
  unfold cellAt
  cases hg : h.get? b with
  | none => rfl
  | some c =>
    have hmem : c ∈ h := List.get?_mem hg
    rw [wfHeapB, List.all_eq_true] at hwf
    simpa using hwf c hmem

theorem hWalk_vundef (h : List HObj) (q : List String) :
    hWalk h .vundef q = .vundef := by
  induction q with
  | nil => rfl
  | cons k ks ih => exact ih

/-- A walk that starts from an in-bounds value of a closed heap only
visits that heap's cells, so it is unchanged in any heap agreeing on
them. -/
theorem hWalk_preserve (h₀ hh : List HObj) (q : List String)
    (hwf : wfHeapB h₀ = true)
    (hpres : ∀ i, i < h₀.length → hh.get? i = h₀.get? i) :
    ∀ v, refBoundB h₀.length v = true → hWalk hh v q = hWalk h₀ v q := by
  induction q with
  | nil => intro v _; cases v <;> rfl
  | cons k ks ih =>
    intro v hv
    cases v with
    | vref a =>
      have ha : a < h₀.length := by simpa [refBoundB] using hv
      have hcell : cellAt hh a = cellAt h₀ a := by unfold cellAt; rw [hpres a ha]
      show hWalk hh (hobjGet (cellAt hh a) k) ks = hWalk h₀ (hobjGet (cellAt h₀ a) k) ks
      rw [hcell]
      exact ih _ (hobjGet_refBound _ _ _ (wfHeapB_cell h₀ a hwf))
    | vnull => exact ih .vundef rfl
    | vundef => exact ih .vundef rfl
    | vbool b => exact ih .vundef rfl
    | vnum n => exact ih .vundef rfl
    | vnan => exact ih .vundef rfl
    | vstr s => exact ih .vundef rfl

theorem hWalk_cons_nonref (h : List HObj) (v : HVal) (k : String) (ks : List String)
    (hv : ∀ b, v ≠ .vref b) : hWalk h v (k :: ks) = .vundef := by
  cases v with
  | vref b => exact absurd rfl (hv b)
  | vnull => exact hWalk_vundef h ks
  | vundef => exact hWalk_vundef h ks
  | vbool b => exact hWalk_vundef h ks
  | vnum n => exact hWalk_vundef h ks
  | vnan => exact hWalk_vundef h ks
  | vstr s => exact hWalk_vundef h ks

theorem setChainH_cons_of_ne (h : List HObj) (cur : Nat) (k : String)
    (tail : List String) (v : HVal) (ht : tail ≠ []) :
    setChainH h cur (k :: tail) v
      = setChainH (updateCell (h ++ [cloneCellH h (hobjGet (cellAt h cur) k)]) cur k
          (.vref h.length)) h.length tail v := by
  cases tail with
  | nil => exact absurd rfl ht
  | cons x xs => rfl

theorem cellAt_congr (h1 h2 : List HObj) (i : Nat) (hg : h1.get? i = h2.get? i) :
    cellAt h1 i = cellAt h2 i := by
  unfold cellAt
  rw [hg]

/-- Core of the structural-sharing claim: walking the result along keys
that properly diverge from the written path (shared prefix `c`, then
`k1 ≠ k2`) observes exactly what walking the original value observes in
the original heap. -/
theorem setChainH_walk (h₀ : List HObj) (hwf : wfHeapB h₀ = true)
    (k1 k2 : String) (hk : k1 ≠ k2) (v : HVal) :
    ∀ (c p' q' : List String) (h : List HObj) (a : Nat) (vO : HVal),
    (∀ i, i < h₀.length → h.get? i = h₀.get? i) →
    h₀.length ≤ a → a < h.length →
    cellAt h a = cloneCellH h₀ vO →
    refBoundB h₀.length vO = true →
    hWalk (setChainH h a (c ++ k2 :: p') v) (.vref a) (c ++ k1 :: q')
      = hWalk h₀ vO (c ++ k1 :: q') := by
  intro c
  induction c with
  | nil =>
    intro p' q' h a vO hpres hna hah hcell hvO
    simp only [List.nil_append]
    have key : ∀ (hx : List HObj), (∀ i, i < h₀.length → hx.get? i = h₀.get? i) →
        hWalk hx (hobjGet (cloneCellH h₀ vO) k1) q' = hWalk h₀ vO (k1 :: q') := by
      intro hx hpx
      cases vO with
      | vref b =>
        have hb : b < h₀.length := by simpa [refBoundB] using hvO
        show hWalk hx (hobjGet (cellAt h₀ b) k1) q' = hWalk h₀ (hobjGet (cellAt h₀ b) k1) q'
        exact hWalk_preserve h₀ hx q' hwf hpx _
          (hobjGet_refBound _ _ _ (wfHeapB_cell h₀ b hwf))
      | vnull => rw [show hobjGet (cloneCellH h₀ .vnull) k1 = .vundef from rfl,
          hWalk_vundef, hWalk_cons_nonref h₀ _ k1 q' (fun b h => HVal.noConfusion h)]
      | vundef => rw [show hobjGet (cloneCellH h₀ .vundef) k1 = .vundef from rfl,
          hWalk_vundef, hWalk_cons_nonref h₀ _ k1 q' (fun b h => HVal.noConfusion h)]
      | vbool bb => rw [show hobjGet (cloneCellH h₀ (.vbool bb)) k1 = .vundef from rfl,
          hWalk_vundef, hWalk_cons_nonref h₀ _ k1 q' (fun b h => HVal.noConfusion h)]
      | vnum nn => rw [show hobjGet (cloneCellH h₀ (.vnum nn)) k1 = .vundef from rfl,
          hWalk_vundef, hWalk_cons_nonref h₀ _ k1 q' (fun b h => HVal.noConfusion h)]
      | vnan => rw [show hobjGet (cloneCellH h₀ .vnan) k1 = .vundef from rfl,
          hWalk_vundef, hWalk_cons_nonref h₀ _ k1 q' (fun b h => HVal.noConfusion h)]
      | vstr ss => rw [show hobjGet (cloneCellH h₀ (.vstr ss)) k1 = .vundef from rfl,
          hWalk_vundef, hWalk_cons_nonref h₀ _ k1 q' (fun b h => HVal.noConfusion h)]
    cases p' with
    | nil =>
      show hWalk (updateCell h a k2 v) (.vref a) (k1 :: q') = hWalk h₀ vO (k1 :: q')
      have hstep : hWalk (updateCell h a k2 v) (.vref a) (k1 :: q')
          = hWalk (updateCell h a k2 v) (hobjGet (cloneCellH h₀ vO) k1) q' := by
        show hWalk _ (hobjGet (cellAt (updateCell h a k2 v) a) k1) q' = _
        rw [cellAt_updateCell_self h a k2 v hah,
          hobjGet_hobjSet_ne _ k2 k1 v (fun he => hk he.symm), hcell]
      rw [hstep]
      refine key _ ?_
      intro i hi
      unfold updateCell
      rw [List.get?_set_ne _ _ (Nat.lt_of_lt_of_le hi hna).ne', hpres i hi]
    | cons k2' rest =>
      rw [setChainH_cons_of_ne h a k2 (k2' :: rest) v (by simp)]
      have hpres2 : ∀ i, i < h₀.length →
          (updateCell (h ++ [cloneCellH h (hobjGet (cellAt h a) k2)]) a k2
            (.vref h.length)).get? i = h₀.get? i := by
        intro i hi
        unfold updateCell
        rw [List.get?_set_ne _ _ (Nat.lt_of_lt_of_le hi hna).ne',
          List.get?_append (Nat.lt_of_lt_of_le hi (hna.trans hah.le)), hpres i hi]
      have hpresF : ∀ i, i < h₀.length →
          (setChainH (updateCell (h ++ [cloneCellH h (hobjGet (cellAt h a) k2)]) a k2
            (.vref h.length)) h.length (k2' :: rest) v).get? i = h₀.get? i := by
        intro i hi
        rw [setChainH_get?_preserve (k2' :: rest) v _ h.length h₀.length
          (hna.trans hah.le) (by simp [updateCell]; omega) i hi]
        exact hpres2 i hi
      have hcellF : cellAt (setChainH (updateCell
            (h ++ [cloneCellH h (hobjGet (cellAt h a) k2)]) a k2
            (.vref h.length)) h.length (k2' :: rest) v) a
          = hobjSet (cellAt h a) k2 (.vref h.length) := by
        rw [cellAt_congr _ _ a (setChainH_get?_preserve (k2' :: rest) v _ h.length h.length
          le_rfl (by simp [updateCell]) a hah)]
        rw [cellAt_updateCell_self (h ++ [cloneCellH h (hobjGet (cellAt h a) k2)]) a k2
          (.vref h.length) (by simp; omega)]
        rw [cellAt_append_lt h _ a hah]
      have hstep : hWalk (setChainH (updateCell
            (h ++ [cloneCellH h (hobjGet (cellAt h a) k2)]) a k2
            (.vref h.length)) h.length (k2' :: rest) v) (.vref a) (k1 :: q')
          = hWalk (setChainH (updateCell
            (h ++ [cloneCellH h (hobjGet (cellAt h a) k2)]) a k2
            (.vref h.length)) h.length (k2' :: rest) v)
            (hobjGet (cloneCellH h₀ vO) k1) q' := by
        show hWalk _ (hobjGet (cellAt _ a) k1) q' = _
        rw [hcellF, hobjGet_hobjSet_ne _ k2 k1 _ (fun he => hk he.symm), hcell]
      rw [hstep]
      exact key _ hpresF
  | cons k0 c' ih =>
    intro p' q' h a vO hpres hna hah hcell hvO
    rw [List.cons_append, List.cons_append,
      setChainH_cons_of_ne h a k0 (c' ++ k2 :: p') v (by simp)]
    have hvO' : refBoundB h₀.length (hobjGet (cloneCellH h₀ vO) k0) = true := by
      cases vO with
      | vref bO =>
        have hb : bO < h₀.length := by simpa [refBoundB] using hvO
        exact hobjGet_refBound _ _ _ (wfHeapB_cell h₀ bO hwf)
      | vnull => rfl
      | vundef => rfl
      | vbool b => rfl
      | vnum n => rfl
      | vnan => rfl
      | vstr s => rfl
    have hpres2 : ∀ i, i < h₀.length →
        (updateCell (h ++ [cloneCellH h (hobjGet (cellAt h a) k0)]) a k0
          (.vref h.length)).get? i = h₀.get? i := by
      intro i hi
      unfold updateCell
      rw [List.get?_set_ne _ _ (Nat.lt_of_lt_of_le hi hna).ne',
        List.get?_append (Nat.lt_of_lt_of_le hi (hna.trans hah.le)), hpres i hi]
    have hcell2 : cellAt (updateCell (h ++ [cloneCellH h (hobjGet (cellAt h a) k0)]) a k0
          (.vref h.length)) h.length
        = cloneCellH h₀ (hobjGet (cloneCellH h₀ vO) k0) := by
      rw [cellAt_updateCell_ne _ a k0 _ h.length hah.ne,
        cellAt_append_self h _, hcell]
      cases hvo2 : hobjGet (cloneCellH h₀ vO) k0 with
      | vref b' =>
        have hb' : b' < h₀.length := by
          have := hvO'
          rw [hvo2] at this
          simpa [refBoundB] using this
        show cellAt h b' = cellAt h₀ b'
        unfold cellAt
        rw [hpres b' hb']
      | vnull => rfl
      | vundef => rfl
      | vbool b => rfl
      | vnum n => rfl
      | vnan => rfl
      | vstr s => rfl
    have hIH := ih p' q'
      (updateCell (h ++ [cloneCellH h (hobjGet (cellAt h a) k0)]) a k0 (.vref h.length))
      h.length (hobjGet (cloneCellH h₀ vO) k0) hpres2 (hna.trans hah.le)
      (by simp [updateCell]) hcell2 hvO'
    have hcellF : cellAt (setChainH (updateCell
          (h ++ [cloneCellH h (hobjGet (cellAt h a) k0)]) a k0
          (.vref h.length)) h.length (c' ++ k2 :: p') v) a
        = hobjSet (cellAt h a) k0 (.vref h.length) := by
      rw [cellAt_congr _ _ a (setChainH_get?_preserve (c' ++ k2 :: p') v _ h.length h.length
        le_rfl (by simp [updateCell]) a hah)]
      rw [cellAt_updateCell_self (h ++ [cloneCellH h (hobjGet (cellAt h a) k0)]) a k0
        (.vref h.length) (by simp; omega)]
      rw [cellAt_append_lt h _ a hah]
    have hstep : hWalk (setChainH (updateCell
          (h ++ [cloneCellH h (hobjGet (cellAt h a) k0)]) a k0
          (.vref h.length)) h.length (c' ++ k2 :: p') v) (.vref a)
          (k0 :: (c' ++ k1 :: q'))
        = hWalk (setChainH (updateCell
          (h ++ [cloneCellH h (hobjGet (cellAt h a) k0)]) a k0
          (.vref h.length)) h.length (c' ++ k2 :: p') v) (.vref h.length)
          (c' ++ k1 :: q') := by
      show hWalk _ (hobjGet (cellAt _ a) k0) _ = _
      rw [hcellF, hobjGet_hobjSet_self]
    have hRHS : hWalk h₀ vO (k0 :: (c' ++ k1 :: q'))
        = hWalk h₀ (hobjGet (cloneCellH h₀ vO) k0) (c' ++ k1 :: q') := by
      cases vO <;> rfl
    rw [hstep, hIH, hRHS]

/-- C7: `setAtPath(o, p, v)` on an object `o` (a reference `a` into a
closed heap) mutates nothing: every pre-existing heap cell — `o` itself
and every one of its sub-objects — is unchanged in the result heap; the
operation allocates exactly one fresh cell per path segment (the copied
chain and nothing else); and every subtree of `o` not lying on the path
from the root to `p` is reference-equal in the result: walking the new
root along any key sequence that diverges from the written path observes
exactly what the original object observes, over unchanged cells. -/
theorem C7_structural_sharing (h : List HObj) (a : Nat) (p : String) (v : HVal)
    (hwf : wfHeapB h = true) (ha : a < h.length) (hp : p ≠ "") :
    (∀ i, i < h.length → (setAtPathH h (.vref a) p v).1.get? i = h.get? i)
    ∧ (setAtPathH h (.vref a) p v).1.length = h.length + (splitPath p).length
    ∧ ∀ (c : List String) (k1 k2 : String) (q' p' : List String),
        k1 ≠ k2 → splitPath p = c ++ k2 :: p' →
        hWalk (setAtPathH h (.vref a) p v).1 (setAtPathH h (.vref a) p v).2 (c ++ k1 :: q')
          = hWalk h (.vref a) (c ++ k1 :: q') := by
  have he : setAtPathH h (.vref a) p v
      = (setChainH (h ++ [cellAt h a]) h.length (splitPath p) v, .vref h.length) := by
    unfold setAtPathH
    rw [if_neg hp]
    rfl
  refine ⟨?_, ?_, ?_⟩
  · intro i hi
    rw [he]
    show (setChainH (h ++ [cellAt h a]) h.length (splitPath p) v).get? i = h.get? i
    rw [setChainH_get?_preserve (splitPath p) v _ h.length h.length le_rfl (by simp) i hi]
    exact List.get?_append hi
  · rw [he]
    show (setChainH (h ++ [cellAt h a]) h.length (splitPath p) v).length = _
    rw [setChainH_length]
    have hne : 0 < (splitPath p).length := List.length_pos.mpr (splitPath_ne_nil p)
    simp
    omega
  · intro c k1 k2 q' p' hk hdec
    rw [he]
    show hWalk (setChainH (h ++ [cellAt h a]) h.length (splitPath p) v) (.vref h.length) _
        = hWalk h (.vref a) _
    rw [hdec]
    refine setChainH_walk h hwf k1 k2 hk v c p' q' (h ++ [cellAt h a]) h.length (.vref a)
      ?_ le_rfl (by simp) ?_ ?_
    · intro i hi
      exact List.get?_append hi
    · rw [cellAt_append_self h _]
      rfl
    · simpa [refBoundB] using ha

def hC7 : List HObj := [[("x", .vnum 1)], [("a", .vref 0), ("y", .vnum 2)]]

/-- C7 witness: a two-cell heap; writing `"a.b"` under the root at address
1 leaves both original cells untouched, allocates exactly two cells, and
the off-path field `"y"` of the root observes the same value. -/
theorem C7_structural_sharing_witness :
    (setAtPathH hC7 (.vref 1) "a.b" (.vnum 9)).1.get? 0 = hC7.get? 0
    ∧ (setAtPathH hC7 (.vref 1) "a.b" (.vnum 9)).1.length
        = hC7.length + (splitPath "a.b").length
    ∧ hWalk (setAtPathH hC7 (.vref 1) "a.b" (.vnum 9)).1
        (setAtPathH hC7 (.vref 1) "a.b" (.vnum 9)).2 ["y"]
      = hWalk hC7 (.vref 1) ["y"] := by
  have hmain := C7_structural_sharing hC7 1 "a.b" (.vnum 9) (by decide) (by decide) (by decide)
  exact ⟨hmain.1 0 (by decide), hmain.2.1,
    hmain.2.2 [] "y" "a" [] ["b"] (by decide) rfl⟩
